import Mathlib

/-!
# Verification of the mongodet schema-driven transcoding core

This file gives a shallow embedding, in Lean 4, of the core of the
`mongodet` repository:

* `src/mongodet/types.js` — the type registry with its built-in
  bidirectional conversions (`objectId`, `int32`, `int64`, `int128`,
  `binary`, `date`) and the `numericStringToBuffer` helper;
* `src/mongodet/conversion.js` — the recursive document transcoder
  (`convertDocument`, `documentToDbFormat`, `dbFormatToDocument`);
* `src/mongodet/Collection/validateDocument.js` — `clone`,
  `validateDocument` and the mode-schema derivation
  (`getValidationData` / `getSchema` / `updateSubSchema`);
* `src/unnamed/part_000` (`errors.js`) — the `MongolError` wrapper.

JavaScript values are modelled by the inductive type `JsValue`:
numbers are modelled as integers (no claim involves fractional or NaN
arithmetic), JS objects as association lists in insertion order
(the JS reordering of integer-like keys is not modelled; no schema or
document in the development uses integer-like object keys), and the
storage objects of the external `mongodb`/`bson` library
(`ObjectId`, `Int32`, `Long`, `Decimal128`, `Binary`, `Date`, `Buffer`)
as dedicated constructors carrying exactly the data the repository
reads back out of them.  Functions from the external libraries
(`bson`, `long.js`, Node `Buffer`) are modelled from their documented
behaviour only as far as the repository exercises them; inputs outside
that envelope are mapped to the explicit error `JsErr.notModelled`
so that no theorem can silently rely on unmodelled behaviour.
Thrown JS exceptions are modelled with `Except JsErr`.
-/

set_option autoImplicit false

namespace Mongodet

/-- A JavaScript value as used by the repository: JSON data plus the
storage objects of the `mongodb` driver.  `num` carries an integer:
every numeric value exercised by the claims is integral. -/
inductive JsValue where
  /-- JS `null`. -/
  | null
  /-- JS `undefined` (also the result of a missing-property read). -/
  | undef
  | bool (b : Bool)
  | num (n : Int)
  | str (s : String)
  /-- A JS array, element order preserved. -/
  | arr (elems : List JsValue)
  /-- A plain JS object, fields in insertion order. -/
  | obj (fields : List (String × JsValue))
  /-- A JS `Date` carrying its millisecond timestamp. -/
  | date (time : Int)
  /-- A Node `Buffer` (byte list). -/
  | buffer (bytes : List Nat)
  /-- A bson `ObjectId`; the 12 identifier bytes are represented by the
  canonical 24-character lowercase hex string `toString` renders. -/
  | mObjectId (hex : String)
  /-- A bson `Int32` wrapper (`.value`). -/
  | mInt32 (value : Int)
  /-- A bson `Long`: the twos-complement 64-bit value as an integer. -/
  | mLong (value : Int)
  /-- A bson `Decimal128` built from a byte buffer; carries `.bytes`. -/
  | mDecimal128 (bytes : List Nat)
  /-- A bson `Binary`; carries the bytes of `.buffer`. -/
  | mBinary (bytes : List Nat)

namespace JsValue

mutual

/-- Boolean structural equality of JS values. -/
def beq : JsValue → JsValue → Bool
  | .null, .null => true
  | .undef, .undef => true
  | .bool a, .bool b => a == b
  | .num a, .num b => a == b
  | .str a, .str b => a == b
  | .arr a, .arr b => beqList a b
  | .obj a, .obj b => beqFields a b
  | .date a, .date b => a == b
  | .buffer a, .buffer b => a == b
  | .mObjectId a, .mObjectId b => a == b
  | .mInt32 a, .mInt32 b => a == b
  | .mLong a, .mLong b => a == b
  | .mDecimal128 a, .mDecimal128 b => a == b
  | .mBinary a, .mBinary b => a == b
  | _, _ => false
termination_by structural v _ => v

/-- Elementwise equality of JS arrays. -/
def beqList : List JsValue → List JsValue → Bool
  | [], [] => true
  | x :: xs, y :: ys => beq x y && beqList xs ys
  | _, _ => false
termination_by structural l _ => l

/-- Fieldwise equality of JS objects. -/
def beqFields : List (String × JsValue) → List (String × JsValue) → Bool
  | [], [] => true
  | (k, v) :: xs, (k2, v2) :: ys => k == k2 && beq v v2 && beqFields xs ys
  | _, _ => false
termination_by structural l _ => l

end

theorem beqList_iff (xs ys : List JsValue)
    (ih : ∀ x ∈ xs, ∀ b, beq x b = true ↔ x = b) :
    beqList xs ys = true ↔ xs = ys := by
  induction xs generalizing ys with
  | nil => cases ys <;> simp [beqList]
  | cons x xs ihl =>
    cases ys with
    | nil => simp [beqList]
    | cons y ys =>
      simp only [beqList, Bool.and_eq_true, List.cons.injEq]
      rw [ih x (by simp), ihl ys (fun a ha b => ih a (by simp [ha]) b)]

theorem beqFields_iff (xs ys : List (String × JsValue))
    (ih : ∀ p ∈ xs, ∀ b, beq p.2 b = true ↔ p.2 = b) :
    beqFields xs ys = true ↔ xs = ys := by
  induction xs generalizing ys with
  | nil => cases ys <;> simp [beqFields]
  | cons x xs ihl =>
    obtain ⟨k, v⟩ := x
    cases ys with
    | nil => simp [beqFields]
    | cons y ys =>
      obtain ⟨k2, v2⟩ := y
      simp only [beqFields, Bool.and_eq_true, List.cons.injEq, Prod.mk.injEq, beq_iff_eq]
      rw [ih (k, v) (by simp), ihl ys (fun a ha b => ih a (by simp [ha]) b)]

theorem sizeOf_pos (a : JsValue) : 0 < sizeOf a := by
  cases a <;> simp

theorem beq_iff_aux : ∀ (n : Nat) (a b : JsValue), sizeOf a ≤ n →
    (beq a b = true ↔ a = b) := by
  intro n
  induction n with
  | zero => intro a b h; have := sizeOf_pos a; omega
  | succ n ih =>
    intro a b h
    cases a <;> cases b <;>
      simp only [beq, beq_iff_eq, JsValue.arr.injEq, JsValue.obj.injEq,
        JsValue.bool.injEq, JsValue.num.injEq, JsValue.str.injEq,
        JsValue.date.injEq, JsValue.buffer.injEq, JsValue.mObjectId.injEq,
        JsValue.mInt32.injEq, JsValue.mLong.injEq, JsValue.mDecimal128.injEq,
        JsValue.mBinary.injEq, reduceCtorEq, iff_true, iff_false] <;>
      try exact fun h => Bool.noConfusion h
    case arr xs ys =>
      refine beqList_iff xs ys (fun x hx b => ih x b ?_)
      have h1 : sizeOf x < sizeOf xs := List.sizeOf_lt_of_mem hx
      have h2 : sizeOf (JsValue.arr xs) = 1 + sizeOf xs := by simp
      omega
    case obj fs gs =>
      refine beqFields_iff fs gs (fun p hp b => ih p.2 b ?_)
      have h1 : sizeOf p < sizeOf fs := List.sizeOf_lt_of_mem hp
      have h2 : sizeOf (JsValue.obj fs) = 1 + sizeOf fs := by simp
      have h3 : sizeOf p.2 < sizeOf p := by
        obtain ⟨k, v⟩ := p; simp
      omega

instance : DecidableEq JsValue := fun a b =>
  decidable_of_iff (beq a b = true) (beq_iff_aux (sizeOf a) a b le_rfl)

/-- JS truthiness. -/
def jsTruthy : JsValue → Bool
  | .null | .undef => false
  | .bool b => b
  | .num n => n != 0
  | .str s => s != ""
  | _ => true

/-- JS property read `v[k]`: association-list lookup on objects,
canonical index lookup on arrays, `undefined` otherwise (reads of
`null`/`undefined` throw and are modelled at their call sites). -/
def jsGet : JsValue → String → JsValue
  | .obj fs, k =>
    match fs.find? (fun p => p.1 == k) with
    | some p => p.2
    | none => .undef
  | .arr xs, k =>
    match k.toNat? with
    | some n => if toString n == k then (xs.getD n .undef) else .undef
    | none => .undef
  | _, _ => (.undef)

/-- `Object.keys`: field names of an object, index strings of an array,
`[]` otherwise (string indexing is not used by the repository). -/
def jsKeys : JsValue → List String
  | .obj fs => fs.map (·.1)
  | .arr xs => (List.range xs.length).map (fun i => toString i)
  | _ => []

/-- The `for (const key in v)` own-enumerable iteration in order. -/
def jsFields : JsValue → List (String × JsValue)
  | .obj fs => fs
  | .arr xs => (List.range xs.length).map (fun i => (toString i, xs.getD i .undef))
  | _ => []

/-- JS object write `o[k] = v`: replace the existing entry or append. -/
def objSet (fs : List (String × JsValue)) (k : String) (v : JsValue) :
    List (String × JsValue) :=
  if fs.any (fun p => p.1 == k) then
    fs.map (fun p => if p.1 == k then (k, v) else p)
  else fs ++ [(k, v)]

end JsValue

export JsValue (jsTruthy jsGet jsKeys jsFields objSet)

/-- Errors thrown by the modelled code. -/
inductive JsErr where
  /-- A `MongolError` built from a message string (`errors.js`). -/
  | mongolError (msg : String)
  /-- A `MongolError` built from an `{error, document, index}` object
  (`validateDocument.js`). -/
  | mongolErrorDoc (error : JsValue) (document : JsValue) (index : Option Nat)
  /-- A JS `TypeError` (e.g. reading a property of `null`/`undefined`). -/
  | typeError (msg : String)
  /-- A plain `throw <string>` (`types.js`). -/
  | jsThrow (msg : String)
  /-- A plain `new Error(...)` (`conversion.js`). -/
  | jsError (msg : String)
  /-- An error thrown inside the external `bson` library. -/
  | bsonError (msg : String)
  /-- Model boundary: external-library behaviour the embedding does not
  model; no theorem in this file relies on these branches. -/
  | notModelled (msg : String)
  /-- Fuel exhaustion of the fuelled schema-derivation recursion
  (the JS original recurses unboundedly on cyclic `$ref` chains). -/
  | outOfFuel
deriving DecidableEq

/-! ## String and number helpers (JS built-ins used by the sources) -/

/-- ASCII lower-casing of one character, the fragment of
`String.prototype.toLocaleLowerCase` the repository exercises. -/
def latinLower (c : Char) : Char :=
  if 65 ≤ c.toNat ∧ c.toNat ≤ 90 then Char.ofNat (c.toNat + 32) else c

/-- `toLocaleLowerCase` on the ASCII fragment. -/
def jsToLower (s : String) : String :=
  ⟨s.data.map latinLower⟩

/-- Digit value of a character for JS `parseInt` (0-9, a-z, A-Z). -/
def charRadixVal (c : Char) : Option Nat :=
  if 48 ≤ c.toNat ∧ c.toNat ≤ 57 then some (c.toNat - 48)
  else if 97 ≤ c.toNat ∧ c.toNat ≤ 122 then some (c.toNat - 97 + 10)
  else if 65 ≤ c.toNat ∧ c.toNat ≤ 90 then some (c.toNat - 65 + 10)
  else none

/-- Is `c` a digit of the given radix? -/
def isRadixDigit (radix : Nat) (c : Char) : Bool :=
  match charRadixVal c with
  | some v => v < radix
  | none => false

/-- Accumulate the maximal leading digit run, JS-`parseInt` style. -/
def parseDigitsAux (radix : Nat) : List Char → Nat → Nat
  | [], acc => acc
  | c :: cs, acc =>
    match charRadixVal c with
    | some v => if v < radix then parseDigitsAux radix cs (acc * radix + v) else acc
    | none => acc

/-- The maximal leading digit run of `cs` in base `radix`; `none` when
the first character is not a digit (JS `NaN`). -/
def parseDigits (radix : Nat) (cs : List Char) : Option Nat :=
  match cs with
  | [] => none
  | c :: _ =>
    if isRadixDigit radix c then some (parseDigitsAux radix cs 0) else none

/-- JS `parseInt(string, radix)` for an explicit radix as used by
`numericStringToBuffer`: optional leading whitespace and sign, a `0x`
prefix when the radix is 16, then the maximal digit run; `none` is JS
`NaN`. -/
def jsParseIntRadix (s : String) (radix : Nat) : Option Int :=
  let cs := s.data.dropWhile (fun c => c = ' ' ∨ c = '\t' ∨ c = '\n' ∨ c = '\r')
  let (sign, cs) : Int × List Char :=
    match cs with
    | '-' :: rest => (-1, rest)
    | '+' :: rest => (1, rest)
    | _ => (1, cs)
  let cs :=
    match radix, cs with
    | 16, '0' :: 'x' :: rest => rest
    | 16, '0' :: 'X' :: rest => rest
    | _, _ => cs
  (parseDigits radix cs).map (fun n => sign * n)

/-- JS `parseInt(v)` with no radix, as `int32`'s forward conversion
uses it.  On a string: whitespace, sign, `0x` hex prefix or decimal.
On an integral number below `1e21` the `ToString` round trip is the
identity; larger magnitudes print in exponential notation, which the
model maps to `none` (a documented boundary, unreachable from the
theorems).  Other values stringify to non-numeric text (`none`); the
JS quirk `parseInt([n]) = n` for one-element arrays is not modelled. -/
def jsParseInt (v : JsValue) : Option Int :=
  match v with
  | .num n => if n.natAbs < 10 ^ 21 then some n else none
  | .str s =>
    let cs := s.data.dropWhile (fun c => c = ' ' ∨ c = '\t' ∨ c = '\n' ∨ c = '\r')
    let (sign, cs) : Int × List Char :=
      match cs with
      | '-' :: rest => (-1, rest)
      | '+' :: rest => (1, rest)
      | _ => (1, cs)
    (match cs with
     | '0' :: 'x' :: rest => (parseDigits 16 rest).map (fun n => sign * n)
     | '0' :: 'X' :: rest => (parseDigits 16 rest).map (fun n => sign * n)
     | _ => (parseDigits 10 cs).map (fun n => sign * n))
  | _ => none

/-- Two's-complement wrap to a signed 32-bit value. -/
def wrap32 (n : Int) : Int := (n + 2 ^ 31) % 2 ^ 32 - 2 ^ 31

/-- Two's-complement wrap to a signed 64-bit value. -/
def wrap64 (n : Int) : Int := (n + 2 ^ 63) % 2 ^ 64 - 2 ^ 63

/-- Hex digit character (lowercase), as `Number.prototype.toString(16)`
produces. -/
def hexDigitChar (n : Nat) : Char :=
  if n < 10 then Char.ofNat (48 + n) else Char.ofNat (97 + (n - 10))

/-- Fuelled digit accumulation for `natHexDigits` (any fuel above the
value itself is enough, since `n / 16 < n` for `n ≥ 16`). -/
def natHexDigitsAux : Nat → Nat → List Char
  | 0, _ => []
  | fuel + 1, n =>
    if n < 16 then [hexDigitChar n]
    else natHexDigitsAux fuel (n / 16) ++ [hexDigitChar (n % 16)]

/-- The hex digit list of `n` with no leading zeros (`['0']` for 0):
JS `n.toString(16)` for a non-negative integer. -/
def natHexDigits (n : Nat) : List Char := natHexDigitsAux (n + 1) n

/-- JS `n.toString(16)`. -/
def natToHex (n : Nat) : String := ⟨natHexDigits n⟩

/-- JS `s.padStart(2, '00')`: left-pad with `'0'` to length 2. -/
def padStart2 (s : String) : String :=
  if s.length < 2 then ⟨List.replicate (2 - s.length) '0' ++ s.data⟩ else s

/-- `b.toString(16).padStart(2, '00')` — one byte as two lowercase hex
characters (for `b < 256`). -/
def byteToHex (b : Nat) : String := padStart2 (natToHex b)

/-! ## `types.js`: `numericStringToBuffer` and the built-in conversions -/

/-- JS `s.startsWith(p)` (over the character list, as the JS engine
compares code units). -/
def jsStartsWith (s p : String) : Bool := p.data.isPrefixOf s.data

/-- The `j`-th little-endian digit group of `body`:
`str.slice(-(nb + j*nb), -(j*nb))` of the loop in
`numericStringToBuffer` (`str.slice(-nb)` for `j = 0`). -/
def numericChunk (body : List Char) (nb j : Nat) : List Char :=
  let len := body.length
  (body.drop (len - (j + 1) * nb)).take ((len - j * nb) - (len - (j + 1) * nb))

/-- One byte of the buffer built by `numericStringToBuffer`:
`buffer[j] = parseInt(chunk, radix)` with the JS typed-array `ToUint8`
coercion (`NaN` stores 0, other values store mod 256). -/
def chunkByte (radix : Nat) (body : List Char) (nb j : Nat) : Nat :=
  match jsParseIntRadix ⟨numericChunk body nb j⟩ radix with
  | some v => (v % 256).toNat
  | none => 0

/-- `numericStringToBuffer` (`types.js`): split a `0x` hex /
`b` binary string into a little-endian byte buffer of
`(len + nb - 1) / nb` bytes (the fractional `Buffer.alloc` size is
truncated by `ToIndex`), the last `nb` digits becoming byte 0. -/
def numericStringToBuffer (s : String) : Except JsErr (List Nat) :=
  if jsStartsWith s "0x" then
    let body := s.data.drop 2
    .ok ((List.range ((body.length + 1) / 2)).map (chunkByte 16 body 2))
  else if jsStartsWith s "b" then
    let body := s.data.drop 1
    .ok ((List.range ((body.length + 7) / 8)).map (chunkByte 2 body 8))
  else
    .error (.jsThrow ("Invalid value " ++ s ++
      ". Only hexadecimal and decimal values are managed by this function"))

/-- Is `c` a hex digit (either case)? -/
def isHexChar (c : Char) : Bool := isRadixDigit 16 c

/-- `objectId` forward conversion: `new ObjectId(data)` validates a
24-character hex string and stores the 12 id bytes (rendered lowercase
by `toString`); other strings throw in bson.  A non-string input makes
bson generate a fresh id from the clock — outside the model. -/
def objectIdToDb (v : JsValue) : Except JsErr JsValue :=
  match v with
  | .str s =>
    if s.length = 24 ∧ s.data.all isHexChar then .ok (.mObjectId (jsToLower s))
    else .error (.bsonError "Argument passed in must be a string of 24 hex characters")
  | _ => .error (.notModelled "ObjectId generation from a non-string input")

/-- `objectId` reverse conversion: `data.toString()`. -/
def objectIdFromDb (v : JsValue) : Except JsErr JsValue :=
  match v with
  | .mObjectId s => .ok (.str s)
  | .null | .undef => .error (.typeError "Cannot read toString of null or undefined")
  | _ => .error (.notModelled "toString of a non-ObjectId storage value")

/-- `int32` forward conversion: `new Int32(parseInt(data))`; the bson
`Int32` constructor coerces with `| 0` (`NaN` becomes 0). -/
def int32ToDb (v : JsValue) : Except JsErr JsValue :=
  .ok (.mInt32 (wrap32 ((jsParseInt v).getD 0)))

/-- `int32` reverse conversion: `data.value`. -/
def int32FromDb (v : JsValue) : Except JsErr JsValue :=
  match v with
  | .mInt32 n => .ok (.num n)
  | .null | .undef => .error (.typeError "Cannot read value of null or undefined")
  | .obj _ => .ok (jsGet v "value")
  | _ => .ok (.undef)

/-- `long.js` `Long.fromString(digits, radix)` for an optional sign and
a pure digit run, accumulating with 64-bit wrap-around; the empty
string throws in long.js, and strings with other characters drive
long.js through `NaN` arithmetic (outside the model). -/
def signSplit (cs : List Char) : Int × List Char :=
  match cs with
  | '-' :: rest => (-1, rest)
  | _ => (1, cs)

def longFromString (s : String) (radix : Nat) : Except JsErr JsValue :=
  if s = "" then .error (.jsThrow "empty string")
  else
    let p := signSplit s.data
    if p.2 ≠ [] ∧ p.2.all (isRadixDigit radix) then
      .ok (.mLong (wrap64 (p.1 * (parseDigitsAux radix p.2 0 : Nat))))
    else .error (.notModelled "Long.fromString on a non-digit string")

/-- `long.js` `Long.fromNumber`: clamps outside the 64-bit range. -/
def longFromNumber (n : Int) : JsValue :=
  .mLong (if n < -(2 ^ 63) then -(2 ^ 63) else if 2 ^ 63 - 1 < n then 2 ^ 63 - 1 else n)

/-- `int64` forward conversion (`types.js`): lower-case the string,
dispatch on a `0x` prefix (hex), a `b` prefix checked on the original
string (binary), or decimal; numbers go through `Long.fromNumber`. -/
def int64ToDb (v : JsValue) : Except JsErr JsValue :=
  match v with
  | .str s =>
    let i64 := jsToLower s
    if jsStartsWith i64 "0x" then longFromString (i64.drop 2) 16
    else if jsStartsWith s "b" then longFromString (i64.drop 1) 2
    else longFromString i64 10
  | .num n => .ok (longFromNumber n)
  | .null | .undef => .error (.typeError "Cannot read properties of null or undefined")
  | _ => .error (.notModelled "Long.fromNumber coercion of a non-number")

/-- `int64` reverse conversion: `data.toInt()` — the *low 32 bits* of
the stored 64-bit value, as a signed host integer. -/
def int64FromDb (v : JsValue) : Except JsErr JsValue :=
  match v with
  | .mLong n => .ok (.num (wrap32 n))
  | _ => .error (.typeError "data.toInt is not a function")

/-- `int128` forward conversion (`types.js`): prefixed strings go
through `numericStringToBuffer` (note: the prefix test is on the
lower-cased copy but the buffer is built from the *original* string);
decimal strings go to `Decimal128.fromString`, whose IEEE 754-2008
encoding belongs to bson and is not modelled; numbers are written as a
little-endian 64-bit value into a zeroed 16-byte buffer
(`writeBigInt64LE` throws a RangeError outside the 64-bit range);
a `Buffer` is wrapped as-is (the bson in use does not re-validate the
byte length, as the even shorter buffers produced by the hex branch
show); anything else throws. -/
def int128ToDb (v : JsValue) : Except JsErr JsValue :=
  match v with
  | .str s =>
    let i128 := jsToLower s
    if jsStartsWith i128 "0x" ∨ jsStartsWith i128 "b" then
      (numericStringToBuffer s).map .mDecimal128
    else .error (.notModelled "Decimal128.fromString decimal encoding")
  | .num n =>
    if -(2 ^ 63) ≤ n ∧ n < 2 ^ 63 then
      .ok (.mDecimal128
        ((List.range 8).map (fun i => ((n % 2 ^ 64).toNat >>> (8 * i)) % 256) ++
          List.replicate 8 0))
    else .error (.jsError "The value of bigint is out of range")
  | .buffer bs => .ok (.mDecimal128 bs)
  | .null | .undef => .error (.typeError "Cannot read properties of null or undefined")
  | _ => .error (.jsThrow "Unable to convert to 128bit")

/-- The descending scan `while (!data.bytes[i] && i >= 0) i--` of the
`int128` reverse conversion: greatest index `≤ i` holding a truthy
(non-zero) byte. -/
def dec128TopIdx (bs : List Nat) : Nat → Option Nat
  | 0 => if bs.getD 0 0 ≠ 0 then some 0 else none
  | i + 1 => if bs.getD (i + 1) 0 ≠ 0 then some (i + 1) else dec128TopIdx bs i

/-- The rendering loop of the `int128` reverse conversion:
`str += data.bytes[i].toString(16).padStart(2, '00')` from index `i`
down to 0. -/
def dec128Render (bs : List Nat) : Nat → String
  | 0 => byteToHex (bs.getD 0 0)
  | i + 1 => byteToHex (bs.getD (i + 1) 0) ++ dec128Render bs i

/-- `int128` reverse conversion body (`types.js`): skip the high-order
zero bytes of the little-endian buffer and render the rest to a
`"0x..."` hex string, `"0x00"` when every byte is zero. -/
def dec128ToHexString (bs : List Nat) : String :=
  match bs.length with
  | 0 => "0x00"
  | n + 1 =>
    match dec128TopIdx bs n with
    | none => "0x00"
    | some k => "0x" ++ dec128Render bs k

/-- `int128` reverse conversion: read `data.bytes` and render. -/
def int128FromDb (v : JsValue) : Except JsErr JsValue :=
  match v with
  | .mDecimal128 bs => .ok (.str (dec128ToHexString bs))
  | _ => .error (.typeError "Cannot read length of undefined bytes")

/-- Node `Buffer.from(string, 'hex')`: consume hex-digit pairs from the
left, stopping at the first invalid or incomplete pair. -/
def bufferFromHex : List Char → List Nat
  | c1 :: c2 :: rest =>
    match charRadixVal c1, charRadixVal c2 with
    | some v1, some v2 =>
      if v1 < 16 ∧ v2 < 16 then (v1 * 16 + v2) :: bufferFromHex rest else []
    | _, _ => []
  | _ => []

/-- Node `buffer.toString('hex')`: two lowercase digits per byte. -/
def bufferToHex (bs : List Nat) : String := String.join (bs.map byteToHex)

/-- Node `Buffer.from(string, 'latin1')`: the low byte of each UTF-16
code unit. -/
def bufferFromLatin1 (cs : List Char) : List Nat := cs.map (fun c => c.toNat % 256)

/-- Node `buffer.toString('latin1')`: one character per byte. -/
def bufferToLatin1 (bs : List Nat) : String := ⟨bs.map (fun b => Char.ofNat (b % 256))⟩

/-- `binary` forward conversion: `new Binary(Buffer.from(data,
encoding))`.  The repository documents the `hex` and `latin1`
encodings; the other Node encodings (and the `Buffer.from` overloads
for non-string data) are outside the model. -/
def binaryToDb (v enc : JsValue) : Except JsErr JsValue :=
  match v with
  | .str s =>
    match enc with
    | .str "hex" => .ok (.mBinary (bufferFromHex s.data))
    | .str "latin1" => .ok (.mBinary (bufferFromLatin1 s.data))
    | _ => .error (.notModelled "Buffer.from with an unmodelled encoding")
  | _ => .error (.notModelled "Buffer.from with a non-string input")

/-- `binary` reverse conversion: `data.buffer.toString(encoding)`. -/
def binaryFromDb (v enc : JsValue) : Except JsErr JsValue :=
  match v with
  | .mBinary bs =>
    match enc with
    | .str "hex" => .ok (.str (bufferToHex bs))
    | .str "latin1" => .ok (.str (bufferToLatin1 bs))
    | _ => .error (.notModelled "buffer.toString with an unmodelled encoding")
  | .null | .undef => .error (.typeError "Cannot read buffer of null or undefined")
  | _ => .error (.typeError "Cannot read toString of undefined buffer")

/-- `date` forward conversion: `data ? new Date(data) : new Date()`.
`new Date(number)` stores the timestamp and `new Date(date)` copies;
`new Date()` reads the ambient clock and JS date-string parsing is
external, so both are model boundaries. -/
def dateToDb (v : JsValue) : Except JsErr JsValue :=
  if jsTruthy v then
    match v with
    | .num n => .ok (.date n)
    | .date t => .ok (.date t)
    | _ => .error (.notModelled "Date parsing of a non-numeric input")
  else .error (.notModelled "new Date() reads the ambient clock")

/-- `date` reverse conversion: the identity. -/
def dateFromDb (v : JsValue) : Except JsErr JsValue := .ok v

/-- `valueToDbFormat` (`types.js`): dispatch over the `toDbFunctions`
registry as populated by the `addType` calls run at module load;
lookups of unregistered names fall through to the identity.  (A lookup
that hits an `Object.prototype` member — e.g. `mongoType: "toString"`
— calls the inherited function; those calls return ordinary values and
never throw, and are not modelled further.) -/
def valueToDbFormat (value typ encoding : JsValue) : Except JsErr JsValue :=
  match typ with
  | .str "objectId" => objectIdToDb value
  | .str "int32" => int32ToDb value
  | .str "int64" => int64ToDb value
  | .str "int128" => int128ToDb value
  | .str "binary" => binaryToDb value encoding
  | .str "date" => dateToDb value
  | _ => .ok value

/-- `dbFormatToValue` (`types.js`): the reverse registry dispatch. -/
def dbFormatToValue (value typ encoding : JsValue) : Except JsErr JsValue :=
  match typ with
  | .str "objectId" => objectIdFromDb value
  | .str "int32" => int32FromDb value
  | .str "int64" => int64FromDb value
  | .str "int128" => int128FromDb value
  | .str "binary" => binaryFromDb value encoding
  | .str "date" => dateFromDb value
  | _ => .ok value

/-! ## `conversion.js`: the document transcoder -/

/-- Drop the first occurrence of `pat`: JS
`s.replace(pat, '')` for a plain (non-regex) pattern. -/
def replaceFirstAux (pat : List Char) : List Char → List Char
  | [] => []
  | c :: rest =>
    if pat.isPrefixOf (c :: rest) then (c :: rest).drop pat.length
    else c :: replaceFirstAux pat rest

/-- JS `s.replace(pat, '')` (first occurrence only). -/
def jsReplaceFirst (s pat : String) : String := ⟨replaceFirstAux pat.data s.data⟩

/-- JS single-character `s.split(sep)`: accumulate the current segment
until the separator, `[""]` on the empty string. -/
def jsSplitAux (sep : Char) : List Char → List Char → List String
  | [], acc => [⟨acc.reverse⟩]
  | c :: rest, acc =>
    if c = sep then ⟨acc.reverse⟩ :: jsSplitAux sep rest []
    else jsSplitAux sep rest (c :: acc)

/-- JS `s.split(sep)` for a one-character separator. -/
def jsSplit (s : String) (sep : Char) : List String := jsSplitAux sep s.data []

/-- The path segments of a `$ref` value:
`ref.replace('#/', '').split('/')`. -/
def refSegments (r : String) : List String := jsSplit (jsReplaceFirst r "#/") '/'

/-- The `$ref` path walk shared by both tree traversals:
`segments.map((p) => { if (ref) ref = ref[p] })` starting from the
schema root. -/
def walkRef (root : JsValue) (segs : List String) : JsValue :=
  segs.foldl (fun ref p => if jsTruthy ref then jsGet ref p else ref) root

/-- The `$ref` step of `convertElement` (`conversion.js`): a truthy
`$ref` *replaces* the whole current node by the walk result from the
original schema root.  Reading `.$ref` off a `null`/`undefined` schema
throws, as does `.replace` on a truthy non-string `$ref`. -/
def resolveRefTranscoder (root schema : JsValue) : Except JsErr JsValue :=
  match schema with
  | .null => .error (.typeError "Cannot read properties of null")
  | .undef => .error (.typeError "Cannot read properties of undefined")
  | _ =>
    match jsGet schema "$ref" with
    | .str r => if r = "" then .ok schema else .ok (walkRef root (refSegments r))
    | v => if jsTruthy v then .error (.typeError "replace is not a function") else .ok schema

/-- The guarded chain
`schema && schema.properties && schema.properties[v] ?
schema.properties[v] : null` of the object branch. -/
def propSchemaOf (sch : JsValue) (k : String) : JsValue :=
  if jsTruthy sch ∧ jsTruthy (jsGet sch "properties") ∧
      jsTruthy (jsGet (jsGet sch "properties") k) then
    jsGet (jsGet sch "properties") k
  else .null

/-- The `(mongoType, encoding)` pair the object branch reads for a leaf
property (the empty string when the guard chain fails). -/
def leafTypeAndEnc (sch : JsValue) (k : String) : JsValue × JsValue :=
  if jsTruthy sch ∧ jsTruthy (jsGet sch "properties") ∧
      jsTruthy (jsGet (jsGet sch "properties") k) then
    (jsGet (jsGet (jsGet sch "properties") k) "mongoType",
     jsGet (jsGet (jsGet sch "properties") k) "encoding")
  else (.str "", .str "")

/-- The `schemaI` selection of the array branch of `convertElement`:
a single object `items` schema applies to every index; a tuple `items`
list applies positionally with `additionalItems` beyond its length;
otherwise `schemaI` stays `undefined`. -/
def selectItemSchema (sch : JsValue) (i : Nat) : JsValue :=
  if jsTruthy sch ∧ jsTruthy (jsGet sch "items") then
    match jsGet sch "items" with
    | .obj fs => .obj fs
    | .arr its => if i < its.length then its.getD i .undef else jsGet sch "additionalItems"
    | _ => .undef
  else .undef

mutual

/-- `convertElement` (`conversion.js`): resolve `$ref`, then convert a
plain object field by field or an array element by element; any other
shape at this level throws.  `cv` is the `convertValue` parameter
(`valueToDbFormat` or `dbFormatToValue`). -/
def convertElement (root : JsValue)
    (cv : JsValue → JsValue → JsValue → Except JsErr JsValue)
    (schema data : JsValue) : Except JsErr JsValue := do
  let sch ← resolveRefTranscoder root schema
  match data with
  | .obj fs => do
    let out ← convertFields root cv sch fs
    pure (.obj out)
  | .arr xs => do
    let out ← convertItems root cv sch 0 xs
    pure (.arr out)
  | .null => .error (.typeError "Cannot read properties of null")
  | .undef => .error (.typeError "Cannot read properties of undefined")
  | _ => .error (.jsError "This function manages directly only objects and arrays")
termination_by structural data

/-- The `for (let v in data)` loop of the object branch: nested maps
and lists recurse with `schema.properties[v]` (or `null`), other
values are leaves converted through the registry. -/
def convertFields (root : JsValue)
    (cv : JsValue → JsValue → JsValue → Except JsErr JsValue)
    (sch : JsValue) :
    List (String × JsValue) → Except JsErr (List (String × JsValue))
  | [] => .ok []
  | (k, v) :: rest => do
    let v' ←
      match v with
      | .obj gs => convertElement root cv (propSchemaOf sch k) (.obj gs)
      | .arr ys => convertElement root cv (propSchemaOf sch k) (.arr ys)
      | .null => .error (.typeError "Cannot read properties of null")
      | .undef => .error (.typeError "Cannot read properties of undefined")
      | w => cv w (leafTypeAndEnc sch k).1 (leafTypeAndEnc sch k).2
    let rest' ← convertFields root cv sch rest
    pure ((k, v') :: rest')
termination_by structural fs => fs

/-- The indexed loop of the array branch: each element pairs with
`selectItemSchema` at its index. -/
def convertItems (root : JsValue)
    (cv : JsValue → JsValue → JsValue → Except JsErr JsValue)
    (sch : JsValue) (i : Nat) :
    List JsValue → Except JsErr (List JsValue)
  | [] => .ok []
  | x :: rest => do
    let x' ←
      match x with
      | .obj gs => convertElement root cv (selectItemSchema sch i) (.obj gs)
      | .arr ys => convertElement root cv (selectItemSchema sch i) (.arr ys)
      | .null => .error (.typeError "Cannot read properties of null")
      | .undef => .error (.typeError "Cannot read properties of undefined")
      | w =>
        let si := selectItemSchema sch i
        cv w (if jsTruthy si then jsGet si "mongoType" else .str "")
          (if jsTruthy si then jsGet si "encoding" else .str "")
    let rest' ← convertItems root cv sch (i + 1) rest
    pure (x' :: rest')
termination_by structural xs => xs

end

/-- The head step of the field loop, named for reasoning: equal to the
inline match of `convertFields` on every value shape. -/
def convertFieldVal (root : JsValue)
    (cv : JsValue → JsValue → JsValue → Except JsErr JsValue)
    (sch : JsValue) (k : String) : JsValue → Except JsErr JsValue
  | .obj gs => convertElement root cv (propSchemaOf sch k) (.obj gs)
  | .arr ys => convertElement root cv (propSchemaOf sch k) (.arr ys)
  | .null => .error (.typeError "Cannot read properties of null")
  | .undef => .error (.typeError "Cannot read properties of undefined")
  | w => cv w (leafTypeAndEnc sch k).1 (leafTypeAndEnc sch k).2

/-- The head step of the item loop, named for reasoning. -/
def convertItemVal (root : JsValue)
    (cv : JsValue → JsValue → JsValue → Except JsErr JsValue)
    (sch : JsValue) (i : Nat) : JsValue → Except JsErr JsValue
  | .obj gs => convertElement root cv (selectItemSchema sch i) (.obj gs)
  | .arr ys => convertElement root cv (selectItemSchema sch i) (.arr ys)
  | .null => .error (.typeError "Cannot read properties of null")
  | .undef => .error (.typeError "Cannot read properties of undefined")
  | w =>
    cv w (if jsTruthy (selectItemSchema sch i) then
        jsGet (selectItemSchema sch i) "mongoType" else .str "")
      (if jsTruthy (selectItemSchema sch i) then
        jsGet (selectItemSchema sch i) "encoding" else .str "")

/-- `convertDocument` (`conversion.js`): pass a falsy schema or falsy
document through unchanged; convert a top-level array element by
element against the whole schema, anything else as a single element. -/
def convertDocument (data schema : JsValue)
    (cv : JsValue → JsValue → JsValue → Except JsErr JsValue) :
    Except JsErr JsValue :=
  if ¬ jsTruthy schema then .ok data
  else if ¬ jsTruthy data then .ok data
  else
    match data with
    | .arr xs => do
      let out ← xs.mapM (fun d => convertElement schema cv schema d)
      pure (.arr out)
    | _ => convertElement schema cv schema data

/-- `documentToDbFormat` (`conversion.js`). -/
def documentToDbFormat (data schema : JsValue) : Except JsErr JsValue :=
  convertDocument data schema valueToDbFormat

/-- `dbFormatToDocument` (`conversion.js`). -/
def dbFormatToDocument (data schema : JsValue) : Except JsErr JsValue :=
  convertDocument data schema dbFormatToValue

/-! ## `validateDocument.js`: validation and mode-schema derivation -/

mutual

/-- `clone` (`validateDocument.js`): primitives (and functions) are
returned as-is (`typeof` is not `'object'`), dates are copied with the
same time, arrays and plain objects are copied structurally.  The
storage objects of the external library are `instanceof Object` in JS
and would be flattened to plain objects of their enumerable internal
fields; no schema contains them, and the model returns them unchanged
(a documented boundary).  The final `throw new MongolError('Unable to
copy...')` line is unreachable: every non-object already returned. -/
def jsClone : JsValue → JsValue
  | .date t => .date t
  | .arr xs => .arr (jsCloneList xs)
  | .obj fs => .obj (jsCloneFields fs)
  | v => v
termination_by structural v => v

/-- Elementwise `clone` of an array. -/
def jsCloneList : List JsValue → List JsValue
  | [] => []
  | x :: xs => jsClone x :: jsCloneList xs
termination_by structural xs => xs

/-- Fieldwise `clone` of an object. -/
def jsCloneFields : List (String × JsValue) → List (String × JsValue)
  | [] => []
  | (k, v) :: fs => (k, jsClone v) :: jsCloneFields fs
termination_by structural fs => fs

end

/-- JS `list.concat(x)`: append the elements of an array argument, or
the single value otherwise. -/
def jsConcat (l : List JsValue) (v : JsValue) : List JsValue :=
  match v with
  | .arr xs => l ++ xs
  | w => l ++ [w]

/-- The common normalization of `required` and `unmodifiableProperties`
for a mode (lines 122-134 resp. 139-160 of `validateDocument.js`): an
array is copied; any other `instanceof Object` value contributes its
truthy `upsert` branch and then its truthy mode branch via `concat`;
primitives are pushed as a one-element list.  Duplicates are *not*
removed. -/
def normalizeModeSpec (mode : String) (v : JsValue) : List JsValue :=
  match v with
  | .arr xs => xs
  | .null | .undef | .bool _ | .num _ | .str _ => [v]
  | w =>
    let l := if jsTruthy (jsGet w "upsert") then jsConcat [] (jsGet w "upsert") else []
    if jsTruthy (jsGet w mode) then jsConcat l (jsGet w mode) else l

/-- JS template-literal coercion of an interpolated value, for the
values the repository interpolates into error messages (property
names; composite values stringify structurally in JS and are a model
boundary). -/
def jsTemplateString : JsValue → String
  | .str s => s
  | .num n => toString n
  | .bool b => cond b "true" "false"
  | .null => "null"
  | .undef => "undefined"
  | _ => "[object]"

/-- The required/unmodifiable conflict message of
`validateDocument.js` line 174. -/
def conflictMsg (r : JsValue) (path mode : String) : String :=
  "Property \"" ++ jsTemplateString r ++ "\" in \"" ++ path ++
    "\", can not be declared as unmodifiable and required. Current mode: \"" ++
    mode ++ "\"."

/-- The `additionalProperties` policy message of
`validateDocument.js` line 178. -/
def policyMsg (path : String) : String :=
  "Error in \"" ++ path ++
    "\": if the parameter \"unmodifiableProperties\" is set, the \"additionalProperties\" parameter must be set to false on the same level."

/-- The field list a JS value contributes to an object spread
(`{...v}`): its own fields for plain objects, nothing for
`null`/`undefined`/primitives (the character spreading of strings is
not modelled; no `$ref` walk lands on a string in the development). -/
def spreadFields : JsValue → List (String × JsValue)
  | .obj fs => fs
  | _ => []

/-- JS `{...a, ...b}`: the fields of `a` in order, values overridden by
`b` on shared keys, the new keys of `b` appended in order. -/
def mergeSpread (a b : JsValue) : List (String × JsValue) :=
  (spreadFields b).foldl (fun acc p => objSet acc p.1 p.2) (spreadFields a)

/-- The `$ref` step of `updateSubSchema` (`validateDocument.js`): clone
the node (a structural no-op, see `jsClone`), walk the `$ref` path
from the root, then `{...schema, ...ref}` — so the *resolved* node's
values win on shared keys — and delete `$ref`. -/
def resolveRefTransformer (root schema : JsValue) : Except JsErr JsValue :=
  match jsGet schema "$ref" with
  | .str r =>
    if r = "" then .ok schema
    else
      let ref := walkRef root (refSegments r)
      .ok (.obj ((mergeSpread schema ref).filter (fun p => p.1 ≠ "$ref")))
  | v => if jsTruthy v then .error (.typeError "replace is not a function") else .ok schema

/-- The working-property-list computation of `updateSubSchema`
(`validateDocument.js` lines 136-182): list the property names, filter
out the normalized unmodifiable names for the mode, run `required.map`
over the normalized required list — a `TypeError` when the node has no
truthy `required` — raising the conflict error on the first
required-and-unmodifiable name, then require `additionalProperties`
to be exactly `false`. -/
def computeKept (mode : String) (schema : JsValue) (path : String)
    (requiredOpt : Option (List JsValue)) : Except JsErr (List String) :=
  if jsTruthy (jsGet schema "properties") then
    let props := jsKeys (jsGet schema "properties")
    if jsTruthy (jsGet schema "unmodifiableProperties") then
      let unmod := normalizeModeSpec mode (jsGet schema "unmodifiableProperties")
      let props := props.filter (fun p => ¬ unmod.contains (JsValue.str p))
      match requiredOpt with
      | none => .error (.typeError "Cannot read properties of undefined (reading map)")
      | some req =>
        match req.find? (fun r => unmod.contains r) with
        | some r => .error (.mongolError (conflictMsg r path mode))
        | none =>
          if jsGet schema "additionalProperties" ≠ .bool false then
            .error (.mongolError (policyMsg path))
          else pure props
    else pure props
  else pure ([] : List String)

/-- The `required` case of the rebuild switch:
`if (required) ret.required = required` (the normalized list is
defined exactly when the node's `required` was truthy). -/
def requiredRebuild (ret : List (String × JsValue)) :
    Option (List JsValue) → List (String × JsValue)
  | some l => objSet ret "required" (.arr l)
  | none => ret

mutual

/-- `updateSubSchema` (`validateDocument.js`), fuelled (the JS
original recurses unboundedly on cyclic `$ref` chains; the model
spends one unit of fuel per recursion step and per rebuilt key, and
`.outOfFuel` — never a JS-faithful outcome — marks exhaustion):
resolve `$ref`, normalize `required` for the mode, filter
`unmodifiableProperties` out of the working property list, raise the
required/unmodifiable conflict and the `additionalProperties` policy
errors — note the conflict check runs `required.map` even when
`required` is undefined, a `TypeError` — and rebuild the node key by
key. -/
def updateSubSchema (refSchema : JsValue) (mode : String) :
    Nat → JsValue → String → Except JsErr JsValue
  | 0, _, _ => .error .outOfFuel
  | fuel + 1, schema0, path =>
    if schema0 = .null ∨ schema0 = .undef then
      .error (.typeError "Cannot read properties of null or undefined")
    else do
      let schema ← resolveRefTransformer refSchema schema0
      let requiredOpt : Option (List JsValue) :=
        if jsTruthy (jsGet schema "required") then
          some (normalizeModeSpec mode (jsGet schema "required"))
        else none
      let kept ← computeKept mode schema path requiredOpt
      rebuildLoop refSchema mode path requiredOpt kept fuel (jsFields schema) []
termination_by structural fuel _ _ => fuel

/-- The `for (const key in schema)` rebuild switch of
`updateSubSchema`: `properties` recurses into the kept properties,
`items` recurses positionally (tuple form) or once, `required` emits
the normalized list when the node had a truthy `required`,
`definitions` and `unmodifiableProperties` are dropped, and any other
key is `clone`d verbatim. -/
def rebuildLoop (refSchema : JsValue) (mode : String) (path : String)
    (requiredOpt : Option (List JsValue)) (kept : List String) :
    Nat → List (String × JsValue) → List (String × JsValue) → Except JsErr JsValue
  | _, [], ret => .ok (.obj ret)
  | 0, _ :: _, _ => .error .outOfFuel
  | fuel + 1, (key, v) :: rest, ret => do
    let ret' ←
      if key = "properties" then do
        let out ← rebuildPropsVal refSchema mode path kept fuel v
        pure (objSet ret "properties" out)
      else if key = "items" then do
        let out ← rebuildItemsVal refSchema mode path fuel v
        pure (objSet ret "items" out)
      else if key = "required" then pure (requiredRebuild ret requiredOpt)
      else if key = "definitions" ∨ key = "unmodifiableProperties" then pure ret
      else pure (objSet ret key (jsClone v))
    rebuildLoop refSchema mode path requiredOpt kept fuel rest ret'
termination_by structural fuel _ _ => fuel

/-- The value stored as the rebuilt `properties` key: the recursively
derived kept properties for an object (or `for-in`-indexed array)
`properties` value, the empty object for anything else. -/
def rebuildPropsVal (refSchema : JsValue) (mode : String) (path : String)
    (kept : List String) :
    Nat → JsValue → Except JsErr JsValue
  | 0, _ => .error .outOfFuel
  | fuel + 1, v =>
    match v with
    | .obj ps => do
      let out ← rebuildPropsObj refSchema mode path kept fuel ps
      pure (.obj out)
    | .arr xs => do
      let out ← rebuildPropsArr refSchema mode path kept 0 fuel xs
      pure (.obj out)
    | _ => pure (.obj [])
termination_by structural fuel _ => fuel

/-- The value stored as the rebuilt `items` key: positional recursion
for a tuple list, one recursive derivation otherwise. -/
def rebuildItemsVal (refSchema : JsValue) (mode : String) (path : String) :
    Nat → JsValue → Except JsErr JsValue
  | 0, _ => .error .outOfFuel
  | fuel + 1, v =>
    match v with
    | .arr its => do
      let out ← rebuildItems refSchema mode path 0 fuel its
      pure (.arr out)
    | w => updateSubSchema refSchema mode fuel w (path ++ ".items")
termination_by structural fuel _ => fuel

/-- The `for (const property in schema.properties)` inner loop for an
object-valued `properties`: recurse into each property that survived
the unmodifiable filter. -/
def rebuildPropsObj (refSchema : JsValue) (mode : String) (path : String)
    (kept : List String) :
    Nat → List (String × JsValue) → Except JsErr (List (String × JsValue))
  | _, [] => .ok []
  | 0, _ :: _ => .error .outOfFuel
  | fuel + 1, (name, sub) :: rest =>
    if kept.contains name then do
      let sub' ← updateSubSchema refSchema mode fuel sub (path ++ ".properties." ++ name)
      let rest' ← rebuildPropsObj refSchema mode path kept fuel rest
      pure ((name, sub') :: rest')
    else rebuildPropsObj refSchema mode path kept fuel rest
termination_by structural fuel _ => fuel

/-- The same inner loop when `properties` is (pathologically) an
array: `for-in` iterates the index strings. -/
def rebuildPropsArr (refSchema : JsValue) (mode : String) (path : String)
    (kept : List String) (i : Nat) :
    Nat → List JsValue → Except JsErr (List (String × JsValue))
  | _, [] => .ok []
  | 0, _ :: _ => .error .outOfFuel
  | fuel + 1, x :: rest =>
    if kept.contains (toString i) then do
      let sub' ← updateSubSchema refSchema mode fuel x (path ++ ".properties." ++ toString i)
      let rest' ← rebuildPropsArr refSchema mode path kept (i + 1) fuel rest
      pure ((toString i, sub') :: rest')
    else rebuildPropsArr refSchema mode path kept (i + 1) fuel rest
termination_by structural fuel _ => fuel

/-- The tuple-`items` rebuild loop, extending the path with
`.items[i]`. -/
def rebuildItems (refSchema : JsValue) (mode : String) (path : String)
    (i : Nat) :
    Nat → List JsValue → Except JsErr (List JsValue)
  | _, [] => .ok []
  | 0, _ :: _ => .error .outOfFuel
  | fuel + 1, x :: rest => do
    let x' ← updateSubSchema refSchema mode fuel x
      (path ++ ".items[" ++ toString i ++ "]")
    let rest' ← rebuildItems refSchema mode path (i + 1) fuel rest
    pure (x' :: rest')
termination_by structural fuel _ => fuel

end

/-- `getSchema` (inside `getValidationData`): derive one mode's schema
starting at the root, with diagnostic path `"schema"`. -/
def getSchema (schema : JsValue) (mode : String) (fuel : Nat) : Except JsErr JsValue :=
  updateSubSchema schema mode fuel schema "schema"

/-- The schema half of the `validationData` record; the Ajv-compiled
validators are opaque external values and are not modelled. -/
structure ValidationData where
  insert : JsValue
  update : JsValue
deriving DecidableEq

/-- `getValidationData` (`validateDocument.js`): derive the
insert-mode schema, then the update-mode schema — an error in the
insert pass therefore wins — and compile each with Ajv (external). -/
def getValidationData (schema : JsValue) (fuel : Nat) : Except JsErr ValidationData := do
  let i ← getSchema schema "insert" fuel
  let u ← getSchema schema "update" fuel
  pure ⟨i, u⟩

/-- A compiled Ajv validator: `run` is the predicate; `errs d` models
the `validator.errors` report Ajv stores on the validator after a
failing call on `d`. -/
structure Validator where
  run : JsValue → Bool
  errs : JsValue → JsValue

/-- The indexed loop of `validateDocument` over a document array:
stops at the first failing element, raising a `MongolError` carrying
`validator.errors`, the failing document and its index.  The
`if (validator)` test sits inside the loop: with no validator the loop
just runs to the end. -/
def validateDocumentLoop (validator : Option Validator) :
    Nat → List JsValue → Except JsErr Unit
  | _, [] => .ok ()
  | i, d :: rest =>
    match validator with
    | some v =>
      if v.run d then validateDocumentLoop validator (i + 1) rest
      else .error (.mongolErrorDoc (v.errs d) d (some i))
    | none => validateDocumentLoop validator (i + 1) rest

/-- `validateDocument` (`validateDocument.js`): an array is checked
element by element (returning the always-empty `ret` array); a single
document raises the same error shape without an index; an absent
validator skips validation. -/
def validateDocument (data : JsValue) (validator : Option Validator) :
    Except JsErr JsValue :=
  match data with
  | .null => .error (.typeError "Cannot read properties of null")
  | .undef => .error (.typeError "Cannot read properties of undefined")
  | .arr xs => do
    validateDocumentLoop validator 0 xs
    pure (.arr [])
  | d =>
    match validator with
    | some v =>
      if v.run d then .ok .undef
      else .error (.mongolErrorDoc (v.errs d) d none)
    | none => .ok (.undef)

/-! ## Shared lemmas -/

theorem jsClone_eq_aux : ∀ (n : Nat) (v : JsValue), sizeOf v ≤ n → jsClone v = v := by
  intro n
  induction n with
  | zero => intro v h; have := JsValue.sizeOf_pos v; omega
  | succ n ih =>
    intro v h
    cases v with
    | arr xs =>
      have hxs : ∀ x ∈ xs, jsClone x = x := by
        intro x hx
        have h1 : sizeOf x < sizeOf xs := List.sizeOf_lt_of_mem hx
        have h2 : sizeOf (JsValue.arr xs) = 1 + sizeOf xs := by simp
        exact ih x (by omega)
      rw [jsClone]
      have : ∀ (l : List JsValue), (∀ x ∈ l, jsClone x = x) → jsCloneList l = l := by
        intro l
        induction l with
        | nil => intro _; rw [jsCloneList]
        | cons a l ihl =>
          intro hl
          rw [jsCloneList, hl a (by simp), ihl (fun x hx => hl x (by simp [hx]))]
      rw [this xs hxs]
    | obj fs =>
      have hfs : ∀ p ∈ fs, jsClone p.2 = p.2 := by
        intro p hp
        have h1 : sizeOf p < sizeOf fs := List.sizeOf_lt_of_mem hp
        have h2 : sizeOf (JsValue.obj fs) = 1 + sizeOf fs := by simp
        have h3 : sizeOf p.2 < sizeOf p := by obtain ⟨k, v⟩ := p; simp
        exact ih p.2 (by omega)
      rw [jsClone]
      have : ∀ (l : List (String × JsValue)), (∀ p ∈ l, jsClone p.2 = p.2) →
          jsCloneFields l = l := by
        intro l
        induction l with
        | nil => intro _; rw [jsCloneFields]
        | cons a l ihl =>
          intro hl
          obtain ⟨k, v⟩ := a
          rw [jsCloneFields, hl (k, v) (by simp), ihl (fun x hx => hl x (by simp [hx]))]
      rw [this fs hfs]
    | _ => rw [jsClone] <;> exact fun _ h => JsValue.noConfusion h

/-- `clone` is structurally the identity on the modelled values. -/
theorem jsClone_eq (v : JsValue) : jsClone v = v :=
  jsClone_eq_aux (sizeOf v) v le_rfl

instance {ε α : Type} [DecidableEq ε] [DecidableEq α] : DecidableEq (Except ε α) :=
  fun a b =>
    match a, b with
    | .ok x, .ok y => decidable_of_iff (x = y) (by simp)
    | .error e, .error f => decidable_of_iff (e = f) (by simp)
    | .ok _, .error _ => isFalse (by simp)
    | .error _, .ok _ => isFalse (by simp)

@[simp] theorem exceptBind_ok {ε α β : Type} (a : α) (f : α → Except ε β) :
    (do
      let x ← (.ok a : Except ε α)
      f x) = f a := rfl

@[simp] theorem exceptBind_pure {ε α β : Type} (a : α) (f : α → Except ε β) :
    (do
      let x ← (pure a : Except ε α)
      f x) = f a := rfl

@[simp] theorem exceptBind_err {ε α β : Type} (e : ε) (f : α → Except ε β) :
    (do
      let x ← (.error e : Except ε α)
      f x) = .error e := rfl

theorem stringJoin_foldl (s : String) (l : List String) :
    l.foldl (· ++ ·) s = s ++ l.foldl (· ++ ·) "" := by
  induction l generalizing s with
  | nil => simp
  | cons a l ih =>
    simp only [List.foldl_cons]
    rw [ih (s ++ a), ih ("" ++ a)]
    simp [String.append_assoc]

theorem stringJoin_cons (a : String) (l : List String) :
    String.join (a :: l) = a ++ String.join l := by
  simp only [String.join, List.foldl_cons]
  rw [stringJoin_foldl]
  simp

/-! ## C7: the `int128` reverse rendering -/

/-- The `int128` reverse rendering as the specification words it:
strip the leading (high-order, i.e. trailing in the little-endian
buffer) zero bytes, render the remaining bytes from high to low as one
two-digit lowercase hex pair each behind `"0x"`, and render the
all-zero buffer as exactly `"0x00"`. -/
def int128FromDbSpec (bs : List Nat) : String :=
  let trimmed := (bs.reverse.dropWhile (fun b => b = 0)).reverse
  if trimmed = [] then "0x00"
  else "0x" ++ String.join (trimmed.reverse.map byteToHex)

theorem padStart2_length (s : String) : 2 ≤ (padStart2 s).length := by
  unfold padStart2
  by_cases h : s.length < 2
  · simp only [h, if_true]
    show 2 ≤ (List.replicate (2 - s.length) '0' ++ s.data).length
    simp only [List.length_append, List.length_replicate]
    have : s.length = s.data.length := rfl
    omega
  · simp only [h, if_false]; omega

theorem byteToHex_length (b : Nat) : 2 ≤ (byteToHex b).length :=
  padStart2_length _

theorem dec128Render_eq (bs : List Nat) :
    ∀ k, k < bs.length →
      dec128Render bs k = String.join (((bs.take (k + 1)).reverse).map byteToHex) := by
  intro k
  induction k with
  | zero =>
    intro hk
    rw [dec128Render]
    match bs, hk with
    | b :: rest, _ => simp [stringJoin_cons, String.join]
  | succ i ih =>
    intro hk
    rw [dec128Render, ih (by omega)]
    have h2 : bs[i + 1]? = some (bs.getD (i + 1) 0) := by
      rw [List.getD_eq_getElem bs 0 hk]
      exact List.getElem?_eq_getElem hk
    have h3 : bs.take (i + 1 + 1) = bs.take (i + 1) ++ [bs.getD (i + 1) 0] := by
      rw [List.take_succ, h2]; rfl
    rw [h3]
    simp [stringJoin_cons]

theorem dec128TopIdx_le (bs : List Nat) :
    ∀ n k, dec128TopIdx bs n = some k → k ≤ n := by
  intro n
  induction n with
  | zero =>
    intro k h
    rw [dec128TopIdx] at h
    split at h
    · cases h; omega
    · cases h
  | succ i ih =>
    intro k h
    rw [dec128TopIdx] at h
    split at h
    · cases h; omega
    · have := ih k h; omega

theorem dec128TopIdx_congr (bs cs : List Nat) :
    ∀ n, (∀ j, j ≤ n → bs.getD j 0 = cs.getD j 0) →
      dec128TopIdx bs n = dec128TopIdx cs n := by
  intro n
  induction n with
  | zero =>
    intro h
    rw [dec128TopIdx, dec128TopIdx, h 0 le_rfl]
  | succ i ih =>
    intro h
    rw [dec128TopIdx, dec128TopIdx, h (i + 1) le_rfl,
      ih (fun j hj => h j (by omega))]

theorem dec128Render_congr (bs cs : List Nat) :
    ∀ k, (∀ j, j ≤ k → bs.getD j 0 = cs.getD j 0) →
      dec128Render bs k = dec128Render cs k := by
  intro k
  induction k with
  | zero => intro h; rw [dec128Render, dec128Render, h 0 le_rfl]
  | succ i ih =>
    intro h
    rw [dec128Render, dec128Render, h (i + 1) le_rfl,
      ih (fun j hj => h j (by omega))]

theorem dec128_append_zero (ys : List Nat) :
    dec128ToHexString (ys ++ [0]) = dec128ToHexString ys := by
  match hlen : ys.length with
  | 0 =>
    have hnil : ys = [] := List.eq_nil_of_length_eq_zero hlen
    subst hnil
    decide
  | m + 1 =>
    unfold dec128ToHexString
    simp only [List.length_append, hlen, List.length_cons, List.length_nil]
    have hget : (ys ++ [0]).getD (m + 1) 0 = 0 := by
      have h := List.getD_append_right ys [0] 0 (m + 1) (by omega)
      rw [h, hlen]
      simp
    rw [dec128TopIdx, hget]
    simp only [ne_eq, not_true_eq_false, if_false]
    have hagree : ∀ j, j ≤ m → (ys ++ [0]).getD j 0 = ys.getD j 0 :=
      fun j hj => List.getD_append ys [0] 0 j (by omega)
    rw [dec128TopIdx_congr _ _ m hagree]
    cases htop : dec128TopIdx ys m with
    | none => rfl
    | some k =>
      have hk : k ≤ m := dec128TopIdx_le _ _ _ htop
      simp only []
      rw [dec128Render_congr (ys ++ [0]) ys k (fun j hj => hagree j (by omega))]

theorem dec128_append_nonzero (ys : List Nat) (b : Nat) (hb : b ≠ 0) :
    dec128ToHexString (ys ++ [b]) =
      "0x" ++ String.join (((ys ++ [b]).reverse).map byteToHex) := by
  match hlen : ys.length with
  | 0 =>
    have hnil : ys = [] := List.eq_nil_of_length_eq_zero hlen
    subst hnil
    unfold dec128ToHexString
    simp only [List.nil_append, List.length_cons, List.length_nil]
    rw [dec128TopIdx]
    simp only [List.getD_cons_zero, ne_eq, hb, not_false_eq_true, if_true]
    rw [dec128Render]
    simp [stringJoin_cons, String.join]
  | m + 1 =>
    unfold dec128ToHexString
    simp only [List.length_append, hlen, List.length_cons, List.length_nil]
    have hget : (ys ++ [b]).getD (m + 1) 0 = b := by
      have h := List.getD_append_right ys [b] 0 (m + 1) (by omega)
      rw [h, hlen]
      simp
    rw [dec128TopIdx, hget]
    simp only [ne_eq, hb, not_false_eq_true, if_true]
    rw [dec128Render_eq _ (m + 1) (by simp [hlen])]
    have : (ys ++ [b]).take (m + 1 + 1) = ys ++ [b] :=
      List.take_of_length_le (by simp [hlen])
    rw [this]

theorem dec128_eq_spec (bs : List Nat) :
    dec128ToHexString bs = int128FromDbSpec bs := by
  induction bs using List.reverseRecOn with
  | nil => decide
  | append_singleton ys b ih =>
    by_cases hb : b = 0
    · subst hb
      have hspec : int128FromDbSpec (ys ++ [0]) = int128FromDbSpec ys := by
        unfold int128FromDbSpec
        simp
      rw [dec128_append_zero, ih, hspec]
    · rw [dec128_append_nonzero ys b hb]
      unfold int128FromDbSpec
      have hdw : (ys ++ [b]).reverse.dropWhile (fun x => decide (x = 0)) =
          (ys ++ [b]).reverse := by
        rw [List.reverse_append]
        simp [List.dropWhile_cons, hb]
      simp only [hdw, List.reverse_reverse]
      have hne : ys ++ [b] ≠ [] := by simp
      simp only [hne, if_false]

/-- **C7.** For every 16-byte storage value, the `int128` reverse
conversion renders the little-endian bytes to hex with the high-order
zero bytes stripped (each byte as one two-digit lowercase pair), always
emits at least one byte pair (the output is at least `"0x"` plus one
pair long), and yields exactly `"0x00"` for the all-zero buffer. -/
theorem C7_int128_reverse_rendering (bs : List Nat)
    (hlen : bs.length = 16) (hbytes : ∀ b ∈ bs, b < 256) :
    int128FromDb (.mDecimal128 bs) = .ok (.str (int128FromDbSpec bs)) ∧
    4 ≤ (int128FromDbSpec bs).length ∧
    ((∀ b ∈ bs, b = 0) → int128FromDb (.mDecimal128 bs) = .ok (.str "0x00")) := by
  refine ⟨by rw [int128FromDb, dec128_eq_spec], ?_, ?_⟩
  · unfold int128FromDbSpec
    set trimmed := (bs.reverse.dropWhile (fun b => decide (b = 0))).reverse with htr
    by_cases h : trimmed = []
    · simp only [h, if_true]
      decide
    · simp only [h, if_false]
      match hm : trimmed.reverse.map byteToHex with
      | [] => exact absurd (by simpa using List.map_eq_nil_iff.mp hm) h
      | p :: ps =>
        rw [stringJoin_cons]
        have hp : 2 ≤ p.length := by
          have hmem : p ∈ trimmed.reverse.map byteToHex := by rw [hm]; simp
          obtain ⟨b, _, hb⟩ := List.mem_map.mp hmem
          rw [← hb]; exact byteToHex_length b
        have hx : ("0x" ++ (p ++ String.join ps)).length =
            "0x".length + (p.length + (String.join ps).length) := by
          simp [String.length_append]
        have h2 : "0x".length = 2 := rfl
        omega
  · intro hz
    rw [int128FromDb, dec128_eq_spec]
    unfold int128FromDbSpec
    have : bs.reverse.dropWhile (fun b => decide (b = 0)) = [] := by
      rw [List.dropWhile_eq_nil_iff]
      intro x hx
      simpa using hz x (List.mem_reverse.mp hx)
    simp [this]

theorem C7_witness :
    ((43 :: 26 :: List.replicate 14 0 : List Nat).length = 16 ∧
      int128FromDbSpec (43 :: 26 :: List.replicate 14 0) = "0x1a2b") ∧
    int128FromDb (.mDecimal128 (43 :: 26 :: List.replicate 14 0)) =
      .ok (.str (int128FromDbSpec (43 :: 26 :: List.replicate 14 0))) := by
  refine ⟨⟨by decide, by decide⟩, ?_⟩
  exact (C7_int128_reverse_rendering (43 :: 26 :: List.replicate 14 0)
    (by decide) (by decide)).1

/-! ## C9: batch validation -/

theorem validateLoop_none (i : Nat) (xs : List JsValue) :
    validateDocumentLoop none i xs = .ok () := by
  induction xs generalizing i with
  | nil => rfl
  | cons x rest ih => rw [validateDocumentLoop]; exact ih (i + 1)

theorem validateLoop_all_ok (v : Validator) :
    ∀ (xs : List JsValue) (i : Nat), (∀ x ∈ xs, v.run x = true) →
      validateDocumentLoop (some v) i xs = .ok () := by
  intro xs
  induction xs with
  | nil => intro i _; rfl
  | cons x rest ih =>
    intro i h
    rw [validateDocumentLoop]
    simp only [h x (by simp), if_true]
    exact ih (i + 1) (fun y hy => h y (by simp [hy]))

theorem validateLoop_first_err (v : Validator) :
    ∀ (xs : List JsValue) (i k : Nat) (hk : k < xs.length),
      (∀ j (hj : j < k), v.run (xs.get ⟨j, by omega⟩) = true) →
      v.run (xs.get ⟨k, hk⟩) = false →
      validateDocumentLoop (some v) i xs =
        .error (.mongolErrorDoc (v.errs (xs.get ⟨k, hk⟩)) (xs.get ⟨k, hk⟩) (some (i + k))) := by
  intro xs
  induction xs with
  | nil => intro i k hk; simp at hk
  | cons x rest ih =>
    intro i k hk hpre hfail
    cases k with
    | zero =>
      rw [validateDocumentLoop]
      simp only [List.get] at hfail ⊢
      simp [hfail]
    | succ k2 =>
      rw [validateDocumentLoop]
      have hx : v.run x = true := by
        have := hpre 0 (by omega)
        simpa using this
      simp only [hx, if_true]
      have := ih (i + 1) k2 (by simpa using hk)
        (fun j hj => by simpa using hpre (j + 1) (by omega))
        (by simpa using hfail)
      rw [this]
      have : i + 1 + k2 = i + (k2 + 1) := by omega
      rw [this]
      rfl

/-- **C9.** Batch validation checks elements independently in order:
the first failing element raises a `MongolError` carrying the
underlying violation report (`validator.errors`), the failing document
and its index, without aggregating later failures; a single failing
document raises the same error shape without an index; an absent
validator skips validation entirely and nothing is raised.  (The model
is pure, so validation cannot mutate the document.) -/
theorem C9_validateDocument (v : Validator) (xs : List JsValue) (d : JsValue)
    (hd1 : d ≠ .null) (hd2 : d ≠ .undef) (hd3 : ∀ ys, d ≠ .arr ys) :
    (∀ (k : Nat) (hk : k < xs.length),
      (∀ j (hj : j < k), v.run (xs.get ⟨j, by omega⟩) = true) →
      v.run (xs.get ⟨k, hk⟩) = false →
      validateDocument (.arr xs) (some v) =
        .error (.mongolErrorDoc (v.errs (xs.get ⟨k, hk⟩)) (xs.get ⟨k, hk⟩) (some k))) ∧
    ((∀ x ∈ xs, v.run x = true) →
      validateDocument (.arr xs) (some v) = .ok (.arr [])) ∧
    (v.run d = false →
      validateDocument d (some v) = .error (.mongolErrorDoc (v.errs d) d none)) ∧
    (v.run d = true → validateDocument d (some v) = .ok .undef) ∧
    validateDocument (.arr xs) none = .ok (.arr []) ∧
    validateDocument d none = .ok .undef := by
  have hsingle : ∀ (w : Option Validator), validateDocument d w =
      (match w with
       | some vv => if vv.run d then .ok .undef
          else .error (.mongolErrorDoc (vv.errs d) d none)
       | none => .ok .undef) := by
    intro w
    cases d <;> simp_all [validateDocument]
  refine ⟨?_, ?_, ?_, ?_, ?_, ?_⟩
  · intro k hk hpre hfail
    show (do
      validateDocumentLoop (some v) 0 xs
      pure (JsValue.arr [])) = _
    rw [validateLoop_first_err v xs 0 k hk hpre hfail]
    simp
  · intro hall
    show (do
      validateDocumentLoop (some v) 0 xs
      pure (JsValue.arr [])) = _
    rw [validateLoop_all_ok v xs 0 hall]
    rfl

  · intro hfail
    rw [hsingle (some v)]
    simp [hfail]
  · intro hok
    rw [hsingle (some v)]
    simp [hok]
  · show (do
      validateDocumentLoop none 0 xs
      pure (JsValue.arr [])) = _
    rw [validateLoop_none]
    rfl
  · rw [hsingle none]

/-- A concrete validator for the C9 witness: accepts exactly the
number 1 and reports the string `"violation"`. -/
def sampleValidator : Validator :=
  ⟨fun x => x == .num 1, fun _ => .str "violation"⟩

/-- Witness for C9: the batch `[1, 2]` fails at index 1 with the
document and report attached. -/
theorem C9_witness :
    validateDocument (.arr [.num 1, .num 2]) (some sampleValidator) =
      .error (.mongolErrorDoc (.str "violation") (.num 2) (some 1)) := by
  have h := (C9_validateDocument sampleValidator [.num 1, .num 2] (.num 2)
    (by decide) (by decide) (fun ys => by simp)).1
  exact h 1 (by decide) (fun j hj => by interval_cases j <;> rfl) rfl

/-! ## C10: null/undefined document fields make transcoding throw -/

theorem exists_error_of_tail {α β γ : Type} (m : Except JsErr α)
    (R : Except JsErr β) (e : JsErr) (he : R = .error e)
    (g : α → β → γ) :
    ∃ e2, (do
      let a ← m
      let b ← R
      pure (g a b) : Except JsErr γ) = .error e2 := by
  cases m with
  | error e0 => exact ⟨e0, rfl⟩
  | ok a => exact ⟨e, by rw [he]; rfl⟩

theorem convertFields_err_of_null (root : JsValue)
    (cv : JsValue → JsValue → JsValue → Except JsErr JsValue)
    (sch : JsValue) (k : String) :
    ∀ fs : List (String × JsValue),
      ((k, JsValue.null) ∈ fs ∨ (k, JsValue.undef) ∈ fs) →
      ∃ e, convertFields root cv sch fs = .error e := by
  intro fs
  induction fs with
  | nil => intro h; rcases h with h | h <;> cases h
  | cons p rest ih =>
    obtain ⟨k0, v0⟩ := p
    intro h
    have hrest : ((k, JsValue.null) ∈ rest ∨ (k, JsValue.undef) ∈ rest) →
        ∃ e, convertFields root cv sch ((k0, v0) :: rest) = .error e := by
      intro hr
      obtain ⟨e, he⟩ := ih hr
      cases v0 with
      | null => rw [convertFields]; exact ⟨_, rfl⟩
      | undef => rw [convertFields]; exact ⟨_, rfl⟩
      | _ =>
        rw [convertFields] <;>
          first
            | exact exists_error_of_tail _ _ e he _
            | exact fun _ h => JsValue.noConfusion h
            | exact fun h => JsValue.noConfusion h
    rcases h with h | h
    · rcases List.mem_cons.mp h with h | h
      · cases h
        rw [convertFields]
        exact ⟨_, rfl⟩
      · exact hrest (Or.inl h)
    · rcases List.mem_cons.mp h with h | h
      · cases h
        rw [convertFields]
        exact ⟨_, rfl⟩
      · exact hrest (Or.inr h)

/-- **C10.** (Implicit claim.)  A map-shaped document with a field
whose value is `null` (or `undefined`) makes transcoding throw against
any truthy (non-absent) schema, in either direction (`cv` ranges over
both registry directions): `convertElement` dereferences
`data[v].constructor` to classify the field value before consulting
the schema.  Only a falsy (`null`/absent) document at the top level is
passed through unchanged by `convertDocument`. -/
theorem C10_null_field_throws (schema : JsValue) (hs : jsTruthy schema = true)
    (cv : JsValue → JsValue → JsValue → Except JsErr JsValue)
    (fs : List (String × JsValue)) (k : String)
    (hmem : (k, JsValue.null) ∈ fs ∨ (k, JsValue.undef) ∈ fs) :
    (∃ e, convertDocument (.obj fs) schema cv = .error e) ∧
    convertDocument .null schema cv = .ok .null ∧
    convertDocument .undef schema cv = .ok .undef := by
  have hnull : convertDocument .null schema cv = .ok .null := by
    unfold convertDocument
    split
    · rfl
    · simp [jsTruthy]
  have hundef : convertDocument .undef schema cv = .ok .undef := by
    unfold convertDocument
    split
    · rfl
    · simp [jsTruthy]
  refine ⟨?_, hnull, hundef⟩
  have hstep : convertDocument (.obj fs) schema cv =
      convertElement schema cv schema (.obj fs) := by
    unfold convertDocument
    rw [hs]
    rfl
  rw [hstep, convertElement]
  cases hres : resolveRefTranscoder schema schema with
  | error e => exact ⟨e, rfl⟩
  | ok sch =>
    obtain ⟨e, he⟩ := convertFields_err_of_null schema cv sch k fs hmem
    refine ⟨e, ?_⟩
    show JsValue.obj <$> convertFields schema cv sch fs = .error e
    rw [he]
    rfl

/-- Witness for C10 at the document `(obj (a: null))` against the
schema `(obj (properties: obj ()))` in the to-storage direction. -/
theorem C10_witness :
    (∃ e, convertDocument (.obj [("a", JsValue.null)])
      (.obj [("properties", .obj [])]) valueToDbFormat = .error e) ∧
    convertDocument .null (.obj [("properties", .obj [])]) valueToDbFormat =
      .ok .null ∧
    convertDocument .undef (.obj [("properties", .obj [])]) valueToDbFormat =
      .ok .undef :=
  C10_null_field_throws (.obj [("properties", .obj [])]) rfl valueToDbFormat
    [("a", JsValue.null)] "a" (Or.inl (by simp))

/-! ## C8: positional item schemas for array transcoding -/

theorem convertItems_ok_char (root : JsValue)
    (cv : JsValue → JsValue → JsValue → Except JsErr JsValue) (sch : JsValue) :
    ∀ (xs : List JsValue) (i0 : Nat) (ys : List JsValue),
      convertItems root cv sch i0 xs = .ok ys →
      ys.length = xs.length ∧
      ∀ j (hj : j < xs.length) (hj2 : j < ys.length),
        (match xs.get ⟨j, hj⟩ with
         | .obj gs =>
           convertElement root cv (selectItemSchema sch (i0 + j)) (.obj gs) =
             .ok (ys.get ⟨j, hj2⟩)
         | .arr zs =>
           convertElement root cv (selectItemSchema sch (i0 + j)) (.arr zs) =
             .ok (ys.get ⟨j, hj2⟩)
         | .null => False
         | .undef => False
         | w =>
           cv w
             (if jsTruthy (selectItemSchema sch (i0 + j)) then
               jsGet (selectItemSchema sch (i0 + j)) "mongoType" else .str "")
             (if jsTruthy (selectItemSchema sch (i0 + j)) then
               jsGet (selectItemSchema sch (i0 + j)) "encoding" else .str "") =
             .ok (ys.get ⟨j, hj2⟩)) := by
  intro xs
  induction xs with
  | nil =>
    intro i0 ys h
    rw [convertItems] at h
    cases h
    exact ⟨rfl, fun j hj => by simp at hj⟩
  | cons x rest ih =>
    intro i0 ys h
    have hstep : ∀ (m : Except JsErr JsValue),
        (do
          let x' ← m
          let rest' ← convertItems root cv sch (i0 + 1) rest
          pure (x' :: rest') : Except JsErr (List JsValue)) = .ok ys →
        ∃ x' rest', m = .ok x' ∧ convertItems root cv sch (i0 + 1) rest = .ok rest' ∧
          ys = x' :: rest' := by
      intro m hm
      cases m with
      | error e => cases hm
      | ok x' =>
        rw [exceptBind_ok] at hm
        cases hr : convertItems root cv sch (i0 + 1) rest with
        | error e => rw [hr, exceptBind_err] at hm; cases hm
        | ok rest' =>
          rw [hr, exceptBind_ok] at hm
          cases hm
          exact ⟨x', rest', rfl, rfl, rfl⟩
    have main : ∃ x' rest',
        (match x with
         | .obj gs => convertElement root cv (selectItemSchema sch i0) (.obj gs)
         | .arr zs => convertElement root cv (selectItemSchema sch i0) (.arr zs)
         | .null => .error (.typeError "Cannot read properties of null")
         | .undef => .error (.typeError "Cannot read properties of undefined")
         | w =>
           cv w
             (if jsTruthy (selectItemSchema sch i0) then
               jsGet (selectItemSchema sch i0) "mongoType" else .str "")
             (if jsTruthy (selectItemSchema sch i0) then
               jsGet (selectItemSchema sch i0) "encoding" else .str "")) = .ok x' ∧
        convertItems root cv sch (i0 + 1) rest = .ok rest' ∧ ys = x' :: rest' := by
      cases x <;>
        (rw [convertItems] at h <;>
          first
            | exact hstep _ h
            | exact fun _ hq => JsValue.noConfusion hq
            | exact fun hq => JsValue.noConfusion hq)
    obtain ⟨x', rest', hx, hr, hys⟩ := main
    obtain ⟨hlen, hall⟩ := ih (i0 + 1) rest' hr
    subst hys
    refine ⟨by simp [hlen], ?_⟩
    intro j hj hj2
    cases j with
    | zero =>
      simp only [List.get, Nat.add_zero]
      cases x <;> simpa using hx
    | succ j2 =>
      have hj' : j2 < rest.length := by simpa using hj
      have hj2' : j2 < rest'.length := by simpa using hj2
      have := hall j2 hj' hj2'
      have harith : i0 + 1 + j2 = i0 + (j2 + 1) := by omega
      rw [harith] at this
      simpa using this

/-- **C8.** Array transcoding selects the item schema positionally:
with tuple-style `items: [schemaA, schemaB]` and
`additionalItems: schemaC`, index 0 uses `schemaA`, index 1 uses
`schemaB` and every index `≥ 2` uses `schemaC`; with a single object
`items` schema every index uses that schema; and the element loop of
`convertElement` applies exactly `selectItemSchema` at each index
(recursing on composites and converting leaves through the registry
with the selected schema's `mongoType`/`encoding`). -/
theorem C8_positional_item_schemas :
    (∀ (sch sA sB sC : JsValue), jsTruthy sch = true →
      jsGet sch "items" = .arr [sA, sB] → jsGet sch "additionalItems" = sC →
      selectItemSchema sch 0 = sA ∧ selectItemSchema sch 1 = sB ∧
        ∀ i, 2 ≤ i → selectItemSchema sch i = sC) ∧
    (∀ (sch : JsValue) (gs : List (String × JsValue)) (i : Nat),
      jsTruthy sch = true → jsGet sch "items" = .obj gs →
      selectItemSchema sch i = .obj gs) ∧
    (∀ (root : JsValue) (cv : JsValue → JsValue → JsValue → Except JsErr JsValue)
      (sch : JsValue) (xs ys : List JsValue) (i0 : Nat),
      convertItems root cv sch i0 xs = .ok ys →
      ys.length = xs.length ∧
      ∀ j (hj : j < xs.length) (hj2 : j < ys.length),
        (match xs.get ⟨j, hj⟩ with
         | .obj gs =>
           convertElement root cv (selectItemSchema sch (i0 + j)) (.obj gs) =
             .ok (ys.get ⟨j, hj2⟩)
         | .arr zs =>
           convertElement root cv (selectItemSchema sch (i0 + j)) (.arr zs) =
             .ok (ys.get ⟨j, hj2⟩)
         | .null => False
         | .undef => False
         | w =>
           cv w
             (if jsTruthy (selectItemSchema sch (i0 + j)) then
               jsGet (selectItemSchema sch (i0 + j)) "mongoType" else .str "")
             (if jsTruthy (selectItemSchema sch (i0 + j)) then
               jsGet (selectItemSchema sch (i0 + j)) "encoding" else .str "") =
             .ok (ys.get ⟨j, hj2⟩))) := by
  refine ⟨?_, ?_, fun root cv sch xs ys i0 h => convertItems_ok_char root cv sch xs i0 ys h⟩
  · intro sch sA sB sC hsch hitems haddl
    have harr : jsTruthy (JsValue.arr [sA, sB]) = true := rfl
    refine ⟨?_, ?_, fun i hi => ?_⟩ <;>
        simp only [selectItemSchema, hitems, hsch, harr, true_and, and_self, if_true]
    · rfl
    · rfl
    · rw [if_neg (by simp only [List.length_cons, List.length_nil]; omega), haddl]
  · intro sch gs i hsch hitems
    have hobj : jsTruthy (JsValue.obj gs) = true := rfl
    simp only [selectItemSchema, hitems, hsch, hobj, true_and, and_self, if_true]

/-- Witness for C8: a three-element array against
`items: [(mongoType: int32), (no type)]` with
`additionalItems: (mongoType: int32)` converts index 0 and every index
`≥ 2` through `int32` and leaves index 1 untouched. -/
theorem C8_witness :
    (selectItemSchema
        (.obj [("items", .arr [.obj [("mongoType", .str "int32")], .obj []]),
          ("additionalItems", .obj [("mongoType", .str "int32")])]) 0 =
      .obj [("mongoType", .str "int32")]) ∧
    convertItems (.obj []) valueToDbFormat
      (.obj [("items", .arr [.obj [("mongoType", .str "int32")], .obj []]),
        ("additionalItems", .obj [("mongoType", .str "int32")])]) 0
      [.str "1", .str "2", .str "3"] =
      .ok [.mInt32 1, .str "2", .mInt32 3] := by
  constructor
  · exact ((C8_positional_item_schemas.1
      (.obj [("items", .arr [.obj [("mongoType", .str "int32")], .obj []]),
        ("additionalItems", .obj [("mongoType", .str "int32")])])
      (.obj [("mongoType", .str "int32")]) (.obj [])
      (.obj [("mongoType", .str "int32")]) rfl rfl rfl).1)
  · decide

/-! ## C5: required-spec normalization -/

theorem jsGet_obj_cons (p : String × JsValue) (fs : List (String × JsValue))
    (k0 : String) :
    jsGet (.obj (p :: fs)) k0 = if p.1 == k0 then p.2 else jsGet (.obj fs) k0 := by
  by_cases hp : (p.1 == k0) = true
  · rw [if_pos hp]
    show (match List.find? (fun q => q.1 == k0) (p :: fs) with
          | some q => q.2
          | none => JsValue.undef) = p.2
    rw [List.find?_cons_of_pos fs hp]
  · rw [if_neg hp]
    show (match List.find? (fun q => q.1 == k0) (p :: fs) with
          | some q => q.2
          | none => JsValue.undef) = _
    rw [List.find?_cons_of_neg fs (by simpa using hp)]
    rfl

theorem jsGet_of_mem_nodup (fs : List (String × JsValue)) (k : String)
    (rv : JsValue) (hmem : (k, rv) ∈ fs) (hnd : (fs.map (·.1)).Nodup) :
    jsGet (.obj fs) k = rv := by
  induction fs with
  | nil => cases hmem
  | cons p rest ih =>
    rw [jsGet_obj_cons]
    rcases List.mem_cons.mp hmem with heq | hmem2
    · cases heq; simp
    · have hk : k ∈ rest.map (·.1) := List.mem_map.mpr ⟨(k, rv), hmem2, rfl⟩
      simp only [List.map_cons, List.nodup_cons] at hnd
      have hne : p.1 ≠ k := fun hc => hnd.1 (hc ▸ hk)
      rw [if_neg (by simpa using hne)]
      exact ih hmem2 hnd.2

theorem jsGet_map_set_ne (k k0 : String) (v : JsValue) (h : k ≠ k0) :
    ∀ fs : List (String × JsValue),
      jsGet (.obj (fs.map (fun p => if p.1 == k then (k, v) else p))) k0 =
        jsGet (.obj fs) k0 := by
  intro fs
  induction fs with
  | nil => rfl
  | cons p rest ih =>
    rw [List.map_cons, jsGet_obj_cons, jsGet_obj_cons]
    by_cases hp : (p.1 == k) = true
    · rw [if_pos hp]
      have h1 : (((k, v) : String × JsValue).1 == k0) = false := by simp [h]
      have h2 : (p.1 == k0) = false := by
        have hpk : p.1 = k := by simpa using hp
        simp [hpk, h]
      rw [h1, h2]
      simpa using ih
    · rw [if_neg hp]
      by_cases hp0 : (p.1 == k0) = true
      · rw [hp0]
        rfl
      · rw [show (p.1 == k0) = false by simpa using hp0]
        simpa using ih

theorem jsGet_append_single_ne (k k0 : String) (v : JsValue) (h : k ≠ k0) :
    ∀ fs : List (String × JsValue),
      jsGet (.obj (fs ++ [(k, v)])) k0 = jsGet (.obj fs) k0 := by
  intro fs
  induction fs with
  | nil =>
    rw [List.nil_append, jsGet_obj_cons]
    simp [h]
  | cons p rest ih =>
    rw [List.cons_append, jsGet_obj_cons, jsGet_obj_cons]
    by_cases hp0 : (p.1 == k0) = true
    · rw [hp0]
      rfl
    · rw [show (p.1 == k0) = false by simpa using hp0]
      simpa using ih

theorem objSet_get_ne (fs : List (String × JsValue)) (k k0 : String)
    (v : JsValue) (h : k ≠ k0) :
    jsGet (.obj (objSet fs k v)) k0 = jsGet (.obj fs) k0 := by
  unfold objSet
  split
  · exact jsGet_map_set_ne k k0 v h fs
  · exact jsGet_append_single_ne k k0 v h fs

theorem jsGet_map_set_eq (k : String) (v : JsValue) :
    ∀ fs : List (String × JsValue), (fs.any (fun p => p.1 == k)) = true →
      jsGet (.obj (fs.map (fun p => if p.1 == k then (k, v) else p))) k = v := by
  intro fs
  induction fs with
  | nil => intro hany; simp at hany
  | cons p rest ih =>
    intro hany
    rw [List.map_cons, jsGet_obj_cons]
    by_cases hp : (p.1 == k) = true
    · rw [if_pos hp]
      simp
    · rw [if_neg hp, show (p.1 == k) = false by simpa using hp]
      refine ih ?_
      simp only [List.any_cons, hp, Bool.false_or] at hany
      exact hany

theorem jsGet_append_single_eq (k : String) (v : JsValue) :
    ∀ fs : List (String × JsValue), ¬ ((fs.any (fun p => p.1 == k)) = true) →
      jsGet (.obj (fs ++ [(k, v)])) k = v := by
  intro fs
  induction fs with
  | nil =>
    intro _
    rw [List.nil_append, jsGet_obj_cons]
    simp
  | cons p rest ih =>
    intro hany
    rw [List.cons_append, jsGet_obj_cons]
    have hp : (p.1 == k) = false := by
      by_contra hc
      have hc2 : (p.1 == k) = true := by simpa using hc
      exact hany (by simp [List.any_cons, hc2])
    rw [hp]
    refine ih ?_
    intro hc
    exact hany (by simp only [List.any_cons, hc, Bool.or_true])

theorem objSet_get_eq (fs : List (String × JsValue)) (k : String) (v : JsValue) :
    jsGet (.obj (objSet fs k v)) k = v := by
  unfold objSet
  split
  · rename_i hany
    exact jsGet_map_set_eq k v fs hany
  · rename_i hany
    exact jsGet_append_single_eq k v fs hany

theorem rebuildLoop_preserve (refSchema : JsValue) (mode path : String)
    (requiredOpt : Option (List JsValue)) (kept : List String) (k0 : String) :
    ∀ (rest : List (String × JsValue)) (fuel : Nat)
      (ret out : List (String × JsValue)),
      rebuildLoop refSchema mode path requiredOpt kept fuel rest ret = .ok (.obj out) →
      k0 ∉ rest.map (·.1) →
      jsGet (.obj out) k0 = jsGet (.obj ret) k0 := by
  intro rest
  induction rest with
  | nil =>
    intro fuel ret out h _
    rw [rebuildLoop] at h
    cases h
    rfl

  | cons p rest ih =>
    obtain ⟨key, v⟩ := p
    intro fuel ret out h hk0
    have hkey : key ≠ k0 := by
      intro hc; exact hk0 (by simp [hc])
    have hrest : k0 ∉ rest.map (·.1) := by
      intro hc; exact hk0 (by simp [hc])
    cases fuel with
    | zero => rw [rebuildLoop] at h; cases h
    | succ fuel =>
      rw [rebuildLoop] at h
      have step : ∀ ret' : List (String × JsValue),
          rebuildLoop refSchema mode path requiredOpt kept fuel rest ret' =
            .ok (.obj out) →
          jsGet (.obj ret') k0 = jsGet (.obj ret) k0 →
          jsGet (.obj out) k0 = jsGet (.obj ret) k0 := by
        intro ret' hrec hpres
        rw [ih fuel ret' out hrec hrest, hpres]
      by_cases h1 : key = "properties"
      · subst h1
        rw [if_pos rfl] at h
        cases hout : rebuildPropsVal refSchema mode path kept fuel v with
        | error e => rw [hout, exceptBind_err] at h; cases h
        | ok outp =>
          rw [hout, exceptBind_ok, exceptBind_pure] at h
          exact step _ h (objSet_get_ne ret "properties" k0 _ hkey)
      · rw [if_neg h1] at h
        by_cases h2 : key = "items"
        · subst h2
          rw [if_pos rfl] at h
          cases hout : rebuildItemsVal refSchema mode path fuel v with
          | error e => rw [hout, exceptBind_err] at h; cases h
          | ok outp =>
            rw [hout, exceptBind_ok, exceptBind_pure] at h
            exact step _ h (objSet_get_ne ret "items" k0 _ hkey)
        · rw [if_neg h2] at h
          by_cases h3 : key = "required"
          · subst h3
            rw [if_pos rfl] at h
            rw [exceptBind_pure] at h
            refine step _ h ?_
            cases requiredOpt with
            | some l =>
              rw [requiredRebuild]
              exact objSet_get_ne ret "required" k0 _ hkey
            | none => rw [requiredRebuild]
          · rw [if_neg h3] at h
            by_cases h4 : key = "definitions" ∨ key = "unmodifiableProperties"
            · rw [if_pos h4] at h
              rw [exceptBind_pure] at h
              exact step _ h rfl
            · rw [if_neg h4] at h
              rw [exceptBind_pure] at h
              exact step _ h (objSet_get_ne ret key k0 _ hkey)

theorem rebuildLoop_required (refSchema : JsValue) (mode path : String)
    (l : List JsValue) (kept : List String) :
    ∀ (fields : List (String × JsValue)) (fuel : Nat)
      (ret out : List (String × JsValue)) (rv : JsValue),
      rebuildLoop refSchema mode path (some l) kept fuel fields ret = .ok (.obj out) →
      ("required", rv) ∈ fields →
      (fields.map (·.1)).Nodup →
      jsGet (.obj out) "required" = .arr l := by
  intro fields
  induction fields with
  | nil => intro fuel ret out rv _ hmem; cases hmem
  | cons p rest ih =>
    obtain ⟨key, v⟩ := p
    intro fuel ret out rv h hmem hnd
    cases fuel with
    | zero => rw [rebuildLoop] at h; cases h
    | succ fuel =>
      rw [rebuildLoop] at h
      rcases List.mem_cons.mp hmem with heq | hmem2
      · cases heq
        rw [if_neg (by decide : ¬("required" = "properties")),
          if_neg (by decide : ¬("required" = "items")), if_pos rfl] at h
        rw [exceptBind_pure, requiredRebuild] at h
        have hnotin : "required" ∉ rest.map (·.1) := by
          simp only [List.map_cons, List.nodup_cons] at hnd
          exact hnd.1
        rw [rebuildLoop_preserve refSchema mode path (some l) kept "required"
          rest fuel _ out h hnotin]
        exact objSet_get_eq ret "required" (.arr l)
      · have hnd2 : (rest.map (·.1)).Nodup := by
          simp only [List.map_cons, List.nodup_cons] at hnd
          exact hnd.2
        have step : ∀ ret' : List (String × JsValue),
            rebuildLoop refSchema mode path (some l) kept fuel rest ret' =
              .ok (.obj out) →
            jsGet (.obj out) "required" = .arr l := by
          intro ret' hrec
          exact ih fuel ret' out rv hrec hmem2 hnd2
        by_cases h1 : key = "properties"
        · subst h1
          rw [if_pos rfl] at h
          cases hout : rebuildPropsVal refSchema mode path kept fuel v with
          | error e => rw [hout, exceptBind_err] at h; cases h
          | ok outp =>
            rw [hout, exceptBind_ok, exceptBind_pure] at h
            exact step _ h
        · rw [if_neg h1] at h
          by_cases h2 : key = "items"
          · subst h2
            rw [if_pos rfl] at h
            cases hout : rebuildItemsVal refSchema mode path fuel v with
            | error e => rw [hout, exceptBind_err] at h; cases h
            | ok outp =>
              rw [hout, exceptBind_ok, exceptBind_pure] at h
              exact step _ h
          · rw [if_neg h2] at h
            by_cases h3 : key = "required"
            · subst h3
              rw [if_pos rfl] at h
              rw [exceptBind_pure] at h
              exact step _ h
            · rw [if_neg h3] at h
              by_cases h4 : key = "definitions" ∨ key = "unmodifiableProperties"
              · rw [if_pos h4] at h
                rw [exceptBind_pure] at h
                exact step _ h
              · rw [if_neg h4] at h
                rw [exceptBind_pure] at h
                exact step _ h

/-- JS `concat` splits off the front list. -/
theorem jsConcat_split (l : List JsValue) (v : JsValue) :
    jsConcat l v = l ++ jsConcat [] v := by
  cases v <;> simp [jsConcat]

/-- **C5 (amended).** Required-spec normalization: the map form yields
the `upsert` branch followed by the mode-`m` branch (each branch
spliced if an array, as a single element otherwise, and skipped when
falsy); the single-name form yields the one-element list; the list
form yields that list unchanged; and the derived node's `required` is
exactly this normalized *ordered list* — which is **not**
deduplicated (amendment: the original claim's "unique names" fails,
see the counterexample).  The claim's own example is included: a node
with `required: (upsert: "a", insert: ["b"], update: ["c"])` derives
insert-mode required `["a", "b"]` and update-mode `["a", "c"]`. -/
theorem C5_required_normalization :
    (∀ (mode : String) (fs : List (String × JsValue)),
      normalizeModeSpec mode (.obj fs) =
        (if jsTruthy (jsGet (.obj fs) "upsert") then
          jsConcat [] (jsGet (.obj fs) "upsert") else []) ++
        (if jsTruthy (jsGet (.obj fs) mode) then
          jsConcat [] (jsGet (.obj fs) mode) else [])) ∧
    (∀ (mode s : String), normalizeModeSpec mode (.str s) = [.str s]) ∧
    (∀ (mode : String) (l : List JsValue), normalizeModeSpec mode (.arr l) = l) ∧
    (∀ (refSchema : JsValue) (mode path : String) (fuel : Nat)
      (schema out : List (String × JsValue)) (rv : JsValue),
      updateSubSchema refSchema mode fuel (.obj schema) path = .ok (.obj out) →
      ("required", rv) ∈ schema →
      (schema.map (·.1)).Nodup →
      jsTruthy (jsGet (.obj schema) "$ref") = false →
      jsTruthy rv = true →
      jsGet (.obj out) "required" =
        .arr (normalizeModeSpec mode (jsGet (.obj schema) "required"))) ∧
    (getValidationData
        (.obj [("properties", .obj [("a", .obj []), ("b", .obj []), ("c", .obj [])]),
          ("required", .obj [("upsert", .str "a"), ("insert", .arr [.str "b"]),
            ("update", .arr [.str "c"])])]) 99 =
      .ok ⟨.obj [("properties", .obj [("a", .obj []), ("b", .obj []), ("c", .obj [])]),
            ("required", .arr [.str "a", .str "b"])],
          .obj [("properties", .obj [("a", .obj []), ("b", .obj []), ("c", .obj [])]),
            ("required", .arr [.str "a", .str "c"])]⟩) := by
  refine ⟨?_, ?_, ?_, ?_, by decide⟩
  · intro mode fs
    unfold normalizeModeSpec
    by_cases h1 : jsTruthy (jsGet (.obj fs) "upsert") = true
    · by_cases h2 : jsTruthy (jsGet (.obj fs) mode) = true
      · simp only [h1, h2, if_true]
        exact jsConcat_split _ _
      · simp [h1, h2]
    · by_cases h2 : jsTruthy (jsGet (.obj fs) mode) = true
      · simp [h1, h2]
      · simp [h1, h2]
  · intro mode s; rfl
  · intro mode l; rfl
  · intro refSchema mode path fuel schema out rv h hmem hnd href hrv
    cases fuel with
    | zero => rw [updateSubSchema] at h; cases h
    | succ fuel =>
      rw [updateSubSchema] at h
      rw [if_neg (by simp)] at h
      have hres : resolveRefTransformer refSchema (.obj schema) = .ok (.obj schema) := by
        unfold resolveRefTransformer
        cases hrf : jsGet (.obj schema) "$ref" with
        | str r =>
          rw [hrf] at href
          have : r = "" := by
            by_contra hne
            simp [jsTruthy, hne] at href
          simp [this]
        | _ => simp_all [jsTruthy]
      rw [hres, exceptBind_ok] at h
      have hgetreq : jsGet (.obj schema) "required" = rv :=
        jsGet_of_mem_nodup schema "required" rv hmem hnd
      have hreqval : jsTruthy (jsGet (.obj schema) "required") = true := by
        rw [hgetreq]; exact hrv
      rw [if_pos hreqval] at h
      simp only [] at h
      cases hk : computeKept mode (.obj schema) path
          (some (normalizeModeSpec mode (jsGet (.obj schema) "required"))) with
      | error e => rw [hk, exceptBind_err] at h; cases h
      | ok kept =>
        rw [hk, exceptBind_ok] at h
        exact rebuildLoop_required refSchema mode path _ kept schema fuel [] out rv
          h hmem hnd

/-- Witness for C5: a one-key node (`required: "a"`) derives
`required: ["a"]` in insert mode. -/
theorem C5_witness :
    jsGet (.obj [("required", JsValue.arr [.str "a"])]) "required" =
      .arr (normalizeModeSpec "insert"
        (jsGet (.obj [("required", JsValue.str "a")]) "required")) :=
  C5_required_normalization.2.2.2.1 (.obj []) "insert" "p" 9
    [("required", .str "a")] [("required", .arr [.str "a"])] (.str "a")
    (by decide) (by decide) (by decide) (by decide) (by decide)

/-- **C5 counterexample.**  The normalized list is *not* a list of
unique names: `required: (upsert: "a", insert: ["a"])` normalizes, in
insert mode, to `["a", "a"]` — with a duplicate — and the derived
insert schema carries exactly that duplicated list. -/
theorem C5_counterexample :
    normalizeModeSpec "insert"
        (.obj [("upsert", .str "a"), ("insert", .arr [.str "a"])]) =
      [.str "a", .str "a"] ∧
    ¬ ([JsValue.str "a", JsValue.str "a"].Nodup) ∧
    getValidationData
        (.obj [("properties", .obj [("a", .obj [])]),
          ("required", .obj [("upsert", .str "a"), ("insert", .arr [.str "a"])])]) 99 =
      .ok ⟨.obj [("properties", .obj [("a", .obj [])]),
            ("required", .arr [.str "a", .str "a"])],
          .obj [("properties", .obj [("a", .obj [])]),
            ("required", .arr [.str "a"])]⟩ := by
  refine ⟨by decide, by decide, by decide⟩

/-! ## C2: the required/unmodifiable conflict error -/

/-- A node with a falsy `$ref` passes through `$ref` resolution
unchanged. -/
theorem resolveRefTransformer_id (root schema : JsValue)
    (href : jsTruthy (jsGet schema "$ref") = false) :
    resolveRefTransformer root schema = .ok schema := by
  unfold resolveRefTransformer
  cases hrf : jsGet schema "$ref" with
  | str r =>
    rw [hrf] at href
    have : r = "" := by
      by_contra hne
      simp [jsTruthy, hne] at href
    simp [this]
  | _ => simp_all [jsTruthy]

theorem updateSubSchema_conflict (refSchema schema : JsValue)
    (mode path : String) (fuel : Nat) (r : JsValue)
    (hnn : schema ≠ .null ∧ schema ≠ .undef)
    (href : jsTruthy (jsGet schema "$ref") = false)
    (hreq : jsTruthy (jsGet schema "required") = true)
    (hprops : jsTruthy (jsGet schema "properties") = true)
    (hunmod : jsTruthy (jsGet schema "unmodifiableProperties") = true)
    (hfind : (normalizeModeSpec mode (jsGet schema "required")).find?
        (fun x => (normalizeModeSpec mode
          (jsGet schema "unmodifiableProperties")).contains x) = some r) :
    updateSubSchema refSchema mode (fuel + 1) schema path =
      .error (.mongolError (conflictMsg r path mode)) := by
  rw [updateSubSchema]
  rw [if_neg (by simp [hnn.1, hnn.2])]
  rw [resolveRefTransformer_id refSchema schema href, exceptBind_ok]
  rw [if_pos hreq]
  have hkept : computeKept mode schema path
      (some (normalizeModeSpec mode (jsGet schema "required"))) =
      .error (.mongolError (conflictMsg r path mode)) := by
    unfold computeKept
    rw [if_pos hprops, if_pos hunmod]
    simp only []
    rw [hfind]
  simp only []
  rw [hkept, exceptBind_err]

/-- **C2 (amended).** When an object node (here: the schema root, with
`properties`, `required` and `unmodifiableProperties` all truthy and
no `$ref`) has a property name in both the normalized required list
and the normalized unmodifiable list for mode `m`, `getValidationData`
raises a `MongolError` whose message identifies the *first* such
required name, the node's dotted path (`"schema"` for the root) and
the mode — provided derivation reaches that check: for `m = update`
the insert-mode pass runs first and any error it raises (e.g. the
`additionalProperties` policy error) wins, so the update-mode conflict
error only surfaces when the insert pass succeeds (see the
counterexample for the claim as originally stated). -/
theorem C2_conflict_error (schema : JsValue) (mode : String) (fuel : Nat)
    (r0 : JsValue)
    (hnn : schema ≠ .null ∧ schema ≠ .undef)
    (href : jsTruthy (jsGet schema "$ref") = false)
    (hreq : jsTruthy (jsGet schema "required") = true)
    (hprops : jsTruthy (jsGet schema "properties") = true)
    (hunmod : jsTruthy (jsGet schema "unmodifiableProperties") = true)
    (hconf : r0 ∈ normalizeModeSpec mode (jsGet schema "required") ∧
      (normalizeModeSpec mode (jsGet schema "unmodifiableProperties")).contains r0)
    (hmode : mode = "insert" ∨
      (mode = "update" ∧ ∃ s, getSchema schema "insert" (fuel + 1) = .ok s)) :
    ∃ r, r ∈ normalizeModeSpec mode (jsGet schema "required") ∧
      (normalizeModeSpec mode (jsGet schema "unmodifiableProperties")).contains r ∧
      getValidationData schema (fuel + 1) =
        .error (.mongolError (conflictMsg r "schema" mode)) := by
  have hex : ∃ r, (normalizeModeSpec mode (jsGet schema "required")).find?
      (fun x => (normalizeModeSpec mode
        (jsGet schema "unmodifiableProperties")).contains x) = some r := by
    rcases List.find?_isSome.mpr ⟨r0, hconf.1, hconf.2⟩ with h
    cases hf : (normalizeModeSpec mode (jsGet schema "required")).find?
        (fun x => (normalizeModeSpec mode
          (jsGet schema "unmodifiableProperties")).contains x) with
    | none => rw [hf] at h; cases h
    | some r => exact ⟨r, rfl⟩
  obtain ⟨r, hfind⟩ := hex
  refine ⟨r, List.mem_of_find?_eq_some hfind, List.find?_some hfind, ?_⟩
  have herr := updateSubSchema_conflict schema schema mode "schema" fuel r hnn
    href hreq hprops hunmod hfind
  rcases hmode with hins | ⟨hupd, s, hs⟩
  · subst hins
    unfold getValidationData getSchema
    rw [herr, exceptBind_err]
  · subst hupd
    unfold getValidationData
    unfold getSchema at hs ⊢
    rw [hs, exceptBind_ok, herr, exceptBind_err]

/-- Witness for C2 at a concrete insert-mode conflict. -/
theorem C2_witness :
    ∃ r, r ∈ normalizeModeSpec "insert"
        (jsGet (.obj [("additionalProperties", .bool false),
          ("properties", .obj [("a", .obj []), ("b", .obj [])]),
          ("required", .str "a"), ("unmodifiableProperties", .str "a")]) "required") ∧
      (normalizeModeSpec "insert"
        (jsGet (.obj [("additionalProperties", .bool false),
          ("properties", .obj [("a", .obj []), ("b", .obj [])]),
          ("required", .str "a"), ("unmodifiableProperties", .str "a")])
          "unmodifiableProperties")).contains r ∧
      getValidationData
          (.obj [("additionalProperties", .bool false),
            ("properties", .obj [("a", .obj []), ("b", .obj [])]),
            ("required", .str "a"), ("unmodifiableProperties", .str "a")]) 99 =
        .error (.mongolError (conflictMsg r "schema" "insert")) :=
  C2_conflict_error
    (.obj [("additionalProperties", .bool false),
      ("properties", .obj [("a", .obj []), ("b", .obj [])]),
      ("required", .str "a"), ("unmodifiableProperties", .str "a")])
    "insert" 98 (.str "a")
    (by decide) (by decide) (by decide) (by decide) (by decide)
    (by decide) (Or.inl rfl)

theorem policyMsg_ne_conflictMsg (path0 : String) :
    ∀ (r : JsValue) (p m : String), policyMsg path0 ≠ conflictMsg r p m := by
  intro r p m h
  have h2 := congrArg (fun s => s.data.head?) h
  simp only [policyMsg, conflictMsg] at h2
  have e1 : ("Error in \"" ++ path0 ++
      "\": if the parameter \"unmodifiableProperties\" is set, the \"additionalProperties\" parameter must be set to false on the same level.").data.head? =
      some 'E' := by
    rw [String.data_append]
    rfl
  have e2 : ("Property \"" ++ jsTemplateString r ++ "\" in \"" ++ p ++
      "\", can not be declared as unmodifiable and required. Current mode: \"" ++
      m ++ "\".").data.head? = some 'P' := by
    rw [String.data_append]
    rfl
  rw [e1, e2] at h2
  cases h2

/-- **C2 counterexample.** The original universal claim fails: this
schema declares `a` both required and unmodifiable *for update mode*,
yet `getValidationData` raises the `additionalProperties` policy error
(from the insert-mode pass, which runs first) rather than a
SchemaConflictError identifying `a` and `update`. -/
theorem C2_counterexample :
    (JsValue.str "a" ∈ normalizeModeSpec "update"
      (jsGet (.obj [("properties", .obj [("a", .obj []), ("b", .obj [])]),
        ("required", .str "a"),
        ("unmodifiableProperties", .obj [("update", .str "a"), ("insert", .str "b")])])
        "required") ∧
    (normalizeModeSpec "update"
      (jsGet (.obj [("properties", .obj [("a", .obj []), ("b", .obj [])]),
        ("required", .str "a"),
        ("unmodifiableProperties", .obj [("update", .str "a"), ("insert", .str "b")])])
        "unmodifiableProperties")).contains (JsValue.str "a")) ∧
    getValidationData
        (.obj [("properties", .obj [("a", .obj []), ("b", .obj [])]),
          ("required", .str "a"),
          ("unmodifiableProperties", .obj [("update", .str "a"), ("insert", .str "b")])])
        99 =
      .error (.mongolError (policyMsg "schema")) ∧
    ∀ (r : JsValue) (p m : String),
      (JsErr.mongolError (policyMsg "schema")) ≠ .mongolError (conflictMsg r p m) := by
  refine ⟨by decide, by decide, ?_⟩
  intro r p m h
  exact policyMsg_ne_conflictMsg "schema" r p m (JsErr.mongolError.inj h)

/-! ## C4 and C6: `unmodifiableProperties` without `required` crashes -/

/-- **C4 (code bug).** The claimed mode-schema invariant is supposed to
hold "whether or not the node declares a required field", but a node
that sets `unmodifiableProperties` (with `additionalProperties: false`)
and declares *no* `required` crashes with a `TypeError`:
`updateSubSchema` runs `required.map(...)` on the undefined `required`.
With a `required` field present the invariant does hold — the same
schema plus `required: "b"` derives schemas whose `properties` and
`required` exclude the unmodifiable name `a` and carry no
`definitions`/`unmodifiableProperties` keys, every other key copied
verbatim. -/
theorem C4_missing_required_crash :
    getValidationData
        (.obj [("additionalProperties", .bool false),
          ("properties", .obj [("a", .obj []), ("b", .obj [])]),
          ("unmodifiableProperties", .str "a")]) 99 =
      .error (.typeError "Cannot read properties of undefined (reading map)") ∧
    getValidationData
        (.obj [("additionalProperties", .bool false),
          ("properties", .obj [("a", .obj []), ("b", .obj [])]),
          ("required", .str "b"),
          ("unmodifiableProperties", .str "a")]) 99 =
      .ok ⟨.obj [("additionalProperties", .bool false),
            ("properties", .obj [("b", .obj [])]),
            ("required", .arr [.str "b"])],
          .obj [("additionalProperties", .bool false),
            ("properties", .obj [("b", .obj [])]),
            ("required", .arr [.str "b"])]⟩ := by
  refine ⟨by decide, by decide⟩

/-- **C6 (code bug).** A master schema that sets
`unmodifiableProperties` at a level where `additionalProperties` is
not explicitly `false` is supposed to raise the SchemaPolicyError
identifying the path, but when the node declares no `required` the
code crashes first with a `TypeError` (`required.map` on undefined),
and no policy error mentioning the path is ever raised. -/
theorem C6_missing_required_crash :
    jsGet (.obj [("properties", .obj [("a", .obj [])]),
        ("unmodifiableProperties", .str "a")]) "additionalProperties" ≠
      .bool false ∧
    getValidationData
        (.obj [("properties", .obj [("a", .obj [])]),
          ("unmodifiableProperties", .str "a")]) 99 =
      .error (.typeError "Cannot read properties of undefined (reading map)") ∧
    getValidationData
        (.obj [("properties", .obj [("a", .obj [])]),
          ("unmodifiableProperties", .str "a")]) 99 ≠
      .error (.mongolError (policyMsg "schema")) := by
  refine ⟨by decide, by decide, by decide⟩

/-! ## C3: `$ref` resolution in the two tree walks -/

/-- The resolution the specification describes (translated from the
spec's own words, for comparison with the code): walk the path
segments from the root, merge the resolved node's keys *under* the
current node — the current node's own keys winning on conflict — and
drop `$ref`. -/
def resolveRefClaim (root schema : JsValue) : JsValue :=
  match jsGet schema "$ref" with
  | .str r =>
    .obj ((mergeSpread (walkRef root (refSegments r)) schema).filter
      (fun p => p.1 ≠ "$ref"))
  | _ => schema

theorem foldl_objSet_get (k : String) :
    ∀ (gs : List (String × JsValue)), (gs.map (·.1)).Nodup →
      ∀ acc : List (String × JsValue),
      jsGet (.obj (gs.foldl (fun a p => objSet a p.1 p.2) acc)) k =
        match gs.find? (fun p => p.1 == k) with
        | some p => p.2
        | none => jsGet (.obj acc) k := by
  intro gs
  induction gs with
  | nil => intro _ acc; rfl
  | cons p rest ih =>
    intro hnd acc
    simp only [List.map_cons, List.nodup_cons] at hnd
    rw [List.foldl_cons]
    by_cases hp : (p.1 == k) = true
    · have hk : p.1 = k := by simpa using hp
      have hrest : rest.find? (fun q => q.1 == k) = none := by
        rw [List.find?_eq_none]
        intro q hq hqk
        apply hnd.1
        rw [hk]
        exact List.mem_map.mpr ⟨q, hq, by simpa using hqk⟩
      rw [List.find?_cons_of_pos rest hp, ih hnd.2 (objSet acc p.1 p.2), hrest]
      rw [← hk]
      exact objSet_get_eq acc p.1 p.2
    · rw [List.find?_cons_of_neg rest (by simpa using hp),
        ih hnd.2 (objSet acc p.1 p.2)]
      cases hf : rest.find? (fun q => q.1 == k) with
      | some q => rfl
      | none => exact objSet_get_ne acc p.1 k p.2 (by simpa using hp)

/-- Lookup across a JS object spread `{...a, ...b}`: a key of `b` reads
`b`'s value, any other key falls through to `a`. -/
theorem mergeSpread_get (fs gs : List (String × JsValue)) (k : String)
    (hng : (gs.map (·.1)).Nodup) :
    jsGet (.obj (mergeSpread (.obj fs) (.obj gs))) k =
      if k ∈ gs.map (·.1) then jsGet (.obj gs) k else jsGet (.obj fs) k := by
  show jsGet (.obj (gs.foldl (fun a p => objSet a p.1 p.2) fs)) k = _
  rw [foldl_objSet_get k gs hng fs]
  cases hf : gs.find? (fun p => p.1 == k) with
  | some p =>
    have hm : p.1 = k := by simpa using List.find?_some hf
    have hmem := List.mem_of_find?_eq_some hf
    rw [if_pos (List.mem_map.mpr ⟨p, hmem, hm⟩)]
    have hp2 : (k, p.2) ∈ gs := by
      have : p = (k, p.2) := by
        cases p
        simp only at hm
        rw [hm]
      exact this ▸ hmem
    exact (jsGet_of_mem_nodup gs k p.2 hp2 hng).symm
  | none =>
    rw [if_neg ?_]
    intro hmem
    obtain ⟨q, hq, hqk⟩ := List.mem_map.mp hmem
    exact absurd (by simpa using hqk) (by simpa using List.find?_eq_none.mp hf q hq)

theorem find?_filter_ne (k : String) (hk : k ≠ "$ref") :
    ∀ l : List (String × JsValue),
      (l.filter (fun p => p.1 ≠ "$ref")).find? (fun p => p.1 == k) =
        l.find? (fun p => p.1 == k) := by
  intro l
  induction l with
  | nil => rfl
  | cons p rest ih =>
    rw [List.filter_cons]
    by_cases hp : p.1 = "$ref"
    · rw [if_neg (by simp [hp])]
      rw [List.find?_cons_of_neg rest ?_]
      · exact ih
      · simp only [hp, beq_iff_eq]
        exact fun h => hk h.symm
    · rw [if_pos (by simp [hp])]
      by_cases hpk : (p.1 == k) = true
      · rw [List.find?_cons_of_pos (rest.filter (fun p => p.1 ≠ "$ref")) hpk,
          List.find?_cons_of_pos rest hpk]
      · rw [List.find?_cons_of_neg (rest.filter (fun p => p.1 ≠ "$ref"))
          (by simpa using hpk), List.find?_cons_of_neg rest (by simpa using hpk)]
        exact ih

theorem jsGet_filter_ne (l : List (String × JsValue)) (k : String)
    (hk : k ≠ "$ref") :
    jsGet (.obj (l.filter (fun p => p.1 ≠ "$ref"))) k = jsGet (.obj l) k := by
  show (match (l.filter (fun p => p.1 ≠ "$ref")).find? (fun p => p.1 == k) with
        | some p => p.2
        | none => JsValue.undef) =
      (match l.find? (fun p => p.1 == k) with
        | some p => p.2
        | none => JsValue.undef)
  rw [find?_filter_ne k hk l]

theorem jsGet_filter_ref (l : List (String × JsValue)) :
    jsGet (.obj (l.filter (fun p => p.1 ≠ "$ref"))) "$ref" = .undef := by
  show (match (l.filter (fun p => p.1 ≠ "$ref")).find?
          (fun p => p.1 == "$ref") with
        | some p => p.2
        | none => JsValue.undef) = JsValue.undef
  have hnone : (l.filter (fun p => p.1 ≠ "$ref")).find?
      (fun p => p.1 == "$ref") = none := by
    rw [List.find?_eq_none]
    intro q hq
    have h2 := (List.mem_filter.mp hq).2
    simp only [ne_eq, decide_not, Bool.not_eq_eq_eq_not, Bool.not_true,
      decide_eq_false_iff_not] at h2
    simpa using h2
  rw [hnone]

/-- **C3 (amended).**  On a node with a truthy string `$ref`, the two
walks agree on the path semantics (drop a leading `#/`, split on `/`,
walk from the root) but not on what they do with the result.  The
document transcoder (`conversion.js`) *replaces* the node with the
walk result outright — the node's own keys do not survive, so no merge
happens, let alone one the current node wins.  The schema transformer
(`validateDocument.js`) does merge and drop `$ref`, but with the
opposite precedence to the claim: `{...schema, ...ref}` lets the
*resolved* node's keys win, so a key reads the resolved node's value
whenever the resolved node has it and only otherwise falls through to
the current node. -/
theorem C3_ref_resolution (root : JsValue) (fs gs : List (String × JsValue))
    (r : String)
    (href : jsGet (.obj fs) "$ref" = .str r) (hr : r ≠ "")
    (hwalk : walkRef root (refSegments r) = .obj gs)
    (hng : (gs.map (·.1)).Nodup) :
    resolveRefTranscoder root (.obj fs) = .ok (.obj gs) ∧
    ∃ ms, resolveRefTransformer root (.obj fs) = .ok (.obj ms) ∧
      jsGet (.obj ms) "$ref" = .undef ∧
      ∀ k, k ≠ "$ref" →
        jsGet (.obj ms) k =
          if k ∈ gs.map (·.1) then jsGet (.obj gs) k
          else jsGet (.obj fs) k := by
  constructor
  · have hdef : resolveRefTranscoder root (.obj fs) =
        match jsGet (.obj fs) "$ref" with
        | .str r =>
          if r = "" then Except.ok (JsValue.obj fs)
          else .ok (walkRef root (refSegments r))
        | v =>
          if jsTruthy v then .error (.typeError "replace is not a function")
          else .ok (.obj fs) := rfl
    rw [hdef, href]
    simp only [if_neg hr]
    rw [hwalk]
  · refine ⟨(mergeSpread (.obj fs) (walkRef root (refSegments r))).filter
      (fun p => p.1 ≠ "$ref"), ?_, ?_, ?_⟩
    · unfold resolveRefTransformer
      rw [href]
      simp only [if_neg hr]
    · exact jsGet_filter_ref (mergeSpread (.obj fs) (walkRef root (refSegments r)))
    · intro k hk
      rw [jsGet_filter_ne (mergeSpread (.obj fs) (walkRef root (refSegments r))) k hk,
        hwalk, mergeSpread_get fs gs k hng]

/-- Witness for C3 at a concrete master schema: `#/d` resolves to
`(x: 1)`; the transcoder replaces the node (`y` is gone), and the
transformer's merged node reads `x` from the resolved node. -/
theorem C3_witness :
    resolveRefTranscoder (.obj [("d", .obj [("x", .num 1)])])
        (.obj [("$ref", .str "#/d"), ("x", .num 2), ("y", .num 3)]) =
      .ok (.obj [("x", .num 1)]) ∧
    ∃ ms, resolveRefTransformer (.obj [("d", .obj [("x", .num 1)])])
        (.obj [("$ref", .str "#/d"), ("x", .num 2), ("y", .num 3)]) =
      .ok (.obj ms) ∧
      jsGet (.obj ms) "$ref" = .undef ∧
      ∀ k, k ≠ "$ref" →
        jsGet (.obj ms) k =
          if k ∈ [("x", JsValue.num 1)].map (·.1) then
            jsGet (.obj [("x", JsValue.num 1)]) k
          else jsGet (.obj [("$ref", JsValue.str "#/d"), ("x", JsValue.num 2),
            ("y", JsValue.num 3)]) k :=
  C3_ref_resolution (.obj [("d", .obj [("x", .num 1)])])
    [("$ref", .str "#/d"), ("x", .num 2), ("y", .num 3)] [("x", .num 1)] "#/d"
    (by decide) (by decide) (by decide) (by decide)

/-- **C3 counterexample.**  A `$ref` node that also declares its own
`properties` refutes the claimed merge direction on both walks.  The
spec-side resolution keeps the node's `mongoType: int32` annotation;
the transformer instead keeps the resolved node's bare property, and
the transcoder keeps nothing of the node at all.  End to end, the
document `(sub: (g: "42"))` converts with `"42"` left untouched,
whereas under the claimed resolution `g` would convert to a stored
int32. -/
theorem C3_counterexample :
    resolveRefClaim
        (.obj [("definitions", .obj [("a",
            .obj [("properties", .obj [("g", .obj [])])])]),
          ("properties", .obj [("sub",
            .obj [("$ref", .str "#/definitions/a"),
              ("properties", .obj [("g", .obj [("mongoType", .str "int32")])])])])])
        (.obj [("$ref", .str "#/definitions/a"),
          ("properties", .obj [("g", .obj [("mongoType", .str "int32")])])]) =
      .obj [("properties", .obj [("g", .obj [("mongoType", .str "int32")])])] ∧
    resolveRefTransformer
        (.obj [("definitions", .obj [("a",
            .obj [("properties", .obj [("g", .obj [])])])]),
          ("properties", .obj [("sub",
            .obj [("$ref", .str "#/definitions/a"),
              ("properties", .obj [("g", .obj [("mongoType", .str "int32")])])])])])
        (.obj [("$ref", .str "#/definitions/a"),
          ("properties", .obj [("g", .obj [("mongoType", .str "int32")])])]) =
      .ok (.obj [("properties", .obj [("g", .obj [])])]) ∧
    resolveRefTranscoder
        (.obj [("definitions", .obj [("a",
            .obj [("properties", .obj [("g", .obj [])])])]),
          ("properties", .obj [("sub",
            .obj [("$ref", .str "#/definitions/a"),
              ("properties", .obj [("g", .obj [("mongoType", .str "int32")])])])])])
        (.obj [("$ref", .str "#/definitions/a"),
          ("properties", .obj [("g", .obj [("mongoType", .str "int32")])])]) =
      .ok (.obj [("properties", .obj [("g", .obj [])])]) ∧
    documentToDbFormat (.obj [("sub", .obj [("g", .str "42")])])
        (.obj [("definitions", .obj [("a",
            .obj [("properties", .obj [("g", .obj [])])])]),
          ("properties", .obj [("sub",
            .obj [("$ref", .str "#/definitions/a"),
              ("properties", .obj [("g", .obj [("mongoType", .str "int32")])])])])]) =
      .ok (.obj [("sub", .obj [("g", .str "42")])]) ∧
    documentToDbFormat (.obj [("g", .str "42")])
        (.obj [("properties", .obj [("g", .obj [("mongoType", .str "int32")])])]) =
      .ok (.obj [("g", .mInt32 42)]) := by
  refine ⟨by decide, by decide, by decide, by decide, by decide⟩

/-! ## C1: the storage round-trip

Infrastructure: per-character facts about ASCII lower-casing and the
two-digit hex rendering of a byte, established once over `Fin 256` /
by interval reasoning and then lifted. -/

theorem toNat_ofNat_valid (n : Nat) (h : n < 55296) : (Char.ofNat n).toNat = n := by
  unfold Char.ofNat
  rw [dif_pos (Or.inl h : n.isValidChar)]
  show (Char.ofNatAux n _).toNat = n
  unfold Char.ofNatAux
  simp [Char.toNat, UInt32.toNat, UInt32.ofNatCore]

theorem latinLower_toNat (c : Char) :
    (latinLower c).toNat =
      if 65 ≤ c.toNat ∧ c.toNat ≤ 90 then c.toNat + 32 else c.toNat := by
  unfold latinLower
  split
  · rename_i h
    exact toNat_ofNat_valid (c.toNat + 32) (by omega)
  · rfl

theorem latinLower_idem (c : Char) : latinLower (latinLower c) = latinLower c := by
  by_cases h : 65 ≤ c.toNat ∧ c.toNat ≤ 90
  · have h2 : (latinLower c).toNat = c.toNat + 32 := by rw [latinLower_toNat, if_pos h]
    have h3 : latinLower (latinLower c) =
        if 65 ≤ (latinLower c).toNat ∧ (latinLower c).toNat ≤ 90 then
          Char.ofNat ((latinLower c).toNat + 32)
        else latinLower c := rfl
    rw [h3, if_neg (by rw [h2]; omega)]
  · have h2 : latinLower c = c := by unfold latinLower; rw [if_neg h]
    rw [h2, h2]

theorem latinLower_hex (c : Char) (h : isHexChar c = true) :
    isHexChar (latinLower c) = true := by
  unfold isHexChar isRadixDigit charRadixVal at h ⊢
  rw [latinLower_toNat]
  by_cases hc : 65 ≤ c.toNat ∧ c.toNat ≤ 90
  · rw [if_neg (by omega), if_neg (by omega), if_pos hc] at h
    simp only [decide_eq_true_eq] at h
    rw [if_pos hc, if_neg (by omega), if_pos (by omega)]
    simp only [decide_eq_true_eq]
    omega
  · rw [if_neg hc]
    exact h

theorem jsToLower_data (s : String) : (jsToLower s).data = s.data.map latinLower := rfl

theorem jsToLower_length (s : String) : (jsToLower s).length = s.length := by
  show (s.data.map latinLower).length = s.data.length
  exact List.length_map s.data latinLower

theorem jsToLower_idem (s : String) : jsToLower (jsToLower s) = jsToLower s := by
  show String.mk ((s.data.map latinLower).map latinLower) = String.mk (s.data.map latinLower)
  apply congrArg
  rw [List.map_map]
  exact List.map_congr_left (fun c _ => latinLower_idem c)

theorem jsToLower_fixed (s : String) (h : ∀ c ∈ s.data, latinLower c = c) :
    jsToLower s = s := by
  show String.mk (s.data.map latinLower) = s
  conv_rhs => rw [show s = String.mk s.data from rfl]
  apply congrArg
  rw [List.map_congr_left h]
  simp

theorem jsToLower_hex (s : String) (h : s.data.all isHexChar = true) :
    (jsToLower s).data.all isHexChar = true := by
  rw [jsToLower_data, List.all_eq_true] at *
  intro c hc
  obtain ⟨c0, hc0, hmap⟩ := List.mem_map.mp hc
  rw [← hmap]
  exact latinLower_hex c0 (h c0 hc0)

def byteHexCheck (b : Nat) : Bool :=
  match (byteToHex b).data with
  | [c1, c2] =>
    match charRadixVal c1, charRadixVal c2 with
    | some v1, some v2 => decide (v1 < 16) && decide (v2 < 16) && (v1 * 16 + v2 == b)
    | _, _ => false
  | _ => false

set_option maxRecDepth 8192 in
theorem byteHexCheck_true : ∀ b : Fin 256, byteHexCheck b.val = true := by decide

theorem byteToHex_spec (b : Nat) (hb : b < 256) :
    ∃ c1 c2 v1 v2, (byteToHex b).data = [c1, c2] ∧
      charRadixVal c1 = some v1 ∧ v1 < 16 ∧
      charRadixVal c2 = some v2 ∧ v2 < 16 ∧ v1 * 16 + v2 = b := by
  have h : byteHexCheck b = true := byteHexCheck_true ⟨b, hb⟩
  unfold byteHexCheck at h
  split at h
  · rename_i c1 c2 heq
    split at h
    · rename_i v1 v2 h1 h2
      simp only [Bool.and_eq_true, decide_eq_true_eq, beq_iff_eq] at h
      exact ⟨c1, c2, v1, v2, heq, h1, h.1.1, h2, h.1.2, h.2⟩
    · exact Bool.noConfusion h
  · exact Bool.noConfusion h

def byteParseCheck (b : Nat) : Bool := jsParseIntRadix (byteToHex b) 16 == some (b : Int)

set_option maxRecDepth 8192 in
theorem byteParseCheck_true : ∀ b : Fin 256, byteParseCheck b.val = true := by decide

theorem byteToHex_parse (b : Nat) (hb : b < 256) :
    jsParseIntRadix (byteToHex b) 16 = some (b : Int) := by
  have h : byteParseCheck b = true := byteParseCheck_true ⟨b, hb⟩
  unfold byteParseCheck at h
  simpa using h

def byteLowerCheck (b : Nat) : Bool := (byteToHex b).data.all (fun c => latinLower c == c)

set_option maxRecDepth 8192 in
theorem byteLowerCheck_true : ∀ b : Fin 256, byteLowerCheck b.val = true := by decide

theorem byteToHex_lower (b : Nat) (hb : b < 256) :
    ∀ c ∈ (byteToHex b).data, latinLower c = c := by
  have h : byteLowerCheck b = true := byteLowerCheck_true ⟨b, hb⟩
  unfold byteLowerCheck at h
  rw [List.all_eq_true] at h
  intro c hc
  simpa using h c hc

def latin1Check (b : Nat) : Bool := (Char.ofNat (b % 256)).toNat % 256 == b

set_option maxRecDepth 8192 in
theorem latin1Check_true : ∀ b : Fin 256, latin1Check b.val = true := by decide

theorem latin1_byte (b : Nat) (hb : b < 256) : (Char.ofNat (b % 256)).toNat % 256 = b := by
  have h : latin1Check b = true := latin1Check_true ⟨b, hb⟩
  simpa [latin1Check] using h

theorem wrap32_range (n : Int) : -(2 ^ 31) ≤ wrap32 n ∧ wrap32 n < 2 ^ 31 := by
  unfold wrap32
  have h1 := Int.emod_nonneg (n + 2 ^ 31) (by norm_num : (2 ^ 32 : Int) ≠ 0)
  have h2 := Int.emod_lt_of_pos (n + 2 ^ 31) (by norm_num : (0 : Int) < 2 ^ 32)
  omega

theorem wrap32_id (n : Int) (h1 : -(2 ^ 31) ≤ n) (h2 : n < 2 ^ 31) : wrap32 n = n := by
  unfold wrap32
  rw [Int.emod_eq_of_lt (by omega) (by omega)]
  omega

theorem jsParseInt_num (m : Int) (h : m.natAbs < 10 ^ 21) :
    jsParseInt (.num m) = some m := by
  show (if m.natAbs < 10 ^ 21 then some m else none) = some m
  rw [if_pos h]

theorem int32ToDb_num_id (m : Int) (hlo : -(2 ^ 31) ≤ m) (hhi : m < 2 ^ 31) :
    int32ToDb (.num m) = .ok (.mInt32 m) := by
  unfold int32ToDb
  rw [jsParseInt_num m (by omega)]
  show Except.ok (JsValue.mInt32 (wrap32 m)) = _
  rw [wrap32_id m hlo hhi]

/-- `int32` stabilizes after one round trip for every input value. -/
theorem int32_rt (v : JsValue) :
    ∃ m, int32ToDb v = .ok (.mInt32 m) ∧
      int32FromDb (.mInt32 m) = .ok (.num m) ∧
      int32ToDb (.num m) = .ok (.mInt32 m) := by
  have hr := wrap32_range ((jsParseInt v).getD 0)
  exact ⟨wrap32 ((jsParseInt v).getD 0), rfl, rfl, int32ToDb_num_id _ hr.1 hr.2⟩

theorem longFromNumber_id (n : Int) (hlo : -(2 ^ 63) ≤ n) (hhi : n ≤ 2 ^ 63 - 1) :
    longFromNumber n = .mLong n := by
  unfold longFromNumber
  rw [if_neg (by omega), if_neg (by omega)]

theorem wrap32_wrap32 (z : Int) : wrap32 (wrap32 z) = wrap32 z := by
  have hr := wrap32_range z
  exact wrap32_id _ hr.1 hr.2

theorem int64ToDb_num_wrap32 (z : Int) :
    int64ToDb (.num (wrap32 z)) = .ok (.mLong (wrap32 z)) := by
  have hr := wrap32_range z
  show Except.ok (longFromNumber (wrap32 z)) = _
  rw [longFromNumber_id (wrap32 z) (by omega) (by omega)]

theorem longFromString_ok (s : String) (r : Nat) (w : JsValue)
    (h : longFromString s r = .ok w) : ∃ z, w = .mLong z := by
  unfold longFromString at h
  split at h
  · cases h
  · simp only [] at h
    split at h
    · cases h
      exact ⟨_, rfl⟩
    · cases h

theorem int64ToDb_ok_mLong (v w : JsValue) (h : int64ToDb v = .ok w) :
    ∃ z, w = .mLong z := by
  cases v with
  | num n =>
    unfold int64ToDb at h
    cases h
    exact ⟨_, rfl⟩
  | str s =>
    unfold int64ToDb at h
    simp only [] at h
    by_cases h1 : jsStartsWith (jsToLower s) "0x" = true
    · rw [if_pos h1] at h
      exact longFromString_ok _ _ _ h
    · rw [if_neg h1] at h
      by_cases h2 : jsStartsWith s "b" = true
      · rw [if_pos h2] at h
        exact longFromString_ok _ _ _ h
      · rw [if_neg h2] at h
        exact longFromString_ok _ _ _ h
  | null => exact Except.noConfusion h
  | undef => exact Except.noConfusion h
  | bool b => exact Except.noConfusion h
  | arr xs => exact Except.noConfusion h
  | obj fs => exact Except.noConfusion h
  | date t => exact Except.noConfusion h
  | buffer bs => exact Except.noConfusion h
  | mObjectId s => exact Except.noConfusion h
  | mInt32 n => exact Except.noConfusion h
  | mLong n => exact Except.noConfusion h
  | mDecimal128 bs => exact Except.noConfusion h
  | mBinary bs => exact Except.noConfusion h

/-- Every successful `int64` forward conversion stabilizes after the
first round trip (the reverse conversion truncates to the signed low
32 bits, which convert back to themselves). -/
theorem int64_rt (v w : JsValue) (h : int64ToDb v = .ok w) :
    ∃ z, w = .mLong z ∧ int64FromDb (.mLong z) = .ok (.num (wrap32 z)) ∧
      int64ToDb (.num (wrap32 z)) = .ok (.mLong (wrap32 z)) ∧
      int64FromDb (.mLong (wrap32 z)) = .ok (.num (wrap32 (wrap32 z))) ∧
      wrap32 (wrap32 z) = wrap32 z := by
  obtain ⟨z, rfl⟩ := int64ToDb_ok_mLong v w h
  exact ⟨z, rfl, rfl, int64ToDb_num_wrap32 z, rfl, wrap32_wrap32 z⟩

/-- `objectId` conversion: a 24-character hex string stores its
lower-cased copy, which reads back and re-converts to itself. -/
theorem objectId_rt (s : String) (h1 : s.length = 24)
    (h2 : s.data.all isHexChar = true) :
    objectIdToDb (.str s) = .ok (.mObjectId (jsToLower s)) ∧
    objectIdFromDb (.mObjectId (jsToLower s)) = .ok (.str (jsToLower s)) ∧
    objectIdToDb (.str (jsToLower s)) = .ok (.mObjectId (jsToLower s)) := by
  refine ⟨?_, rfl, ?_⟩
  · show (if s.length = 24 ∧ s.data.all isHexChar = true then
        Except.ok (JsValue.mObjectId (jsToLower s))
      else Except.error
        (JsErr.bsonError "Argument passed in must be a string of 24 hex characters")) = _
    rw [if_pos ⟨h1, h2⟩]
  · show (if (jsToLower s).length = 24 ∧ (jsToLower s).data.all isHexChar = true then
        Except.ok (JsValue.mObjectId (jsToLower (jsToLower s)))
      else Except.error
        (JsErr.bsonError "Argument passed in must be a string of 24 hex characters")) = _
    rw [if_pos ⟨by rw [jsToLower_length]; exact h1, jsToLower_hex s h2⟩,
      jsToLower_idem]

theorem bufferFromHex_lt_aux :
    ∀ (n : Nat) (cs : List Char), cs.length ≤ n → ∀ b ∈ bufferFromHex cs, b < 256 := by
  intro n
  induction n with
  | zero =>
    intro cs hlen b hb
    match cs, hlen with
    | [], _ => simp [bufferFromHex] at hb
  | succ m ih =>
    intro cs hlen b hb
    match cs with
    | [] => simp [bufferFromHex] at hb
    | [c] => simp [bufferFromHex] at hb
    | c1 :: c2 :: rest =>
      rw [bufferFromHex] at hb
      revert hb
      split
      · split
        · rename_i hv
          intro hb
          rcases List.mem_cons.mp hb with hbe | hmem
          · omega
          · refine ih rest ?_ b hmem
            simp only [List.length_cons] at hlen
            omega
        · intro hb
          exact absurd hb (List.not_mem_nil b)
      · intro hb
        exact absurd hb (List.not_mem_nil b)

theorem bufferFromHex_lt (cs : List Char) : ∀ b ∈ bufferFromHex cs, b < 256 :=
  bufferFromHex_lt_aux cs.length cs le_rfl

theorem bufferFromHex_toHex (bs : List Nat) (h : ∀ b ∈ bs, b < 256) :
    bufferFromHex (bufferToHex bs).data = bs := by
  induction bs with
  | nil => rfl
  | cons b rest ih =>
    have hb : b < 256 := h b (List.mem_cons_self b rest)
    obtain ⟨c1, c2, v1, v2, hdata, h1, hv1, h2, hv2, hsum⟩ := byteToHex_spec b hb
    show bufferFromHex (String.join ((b :: rest).map byteToHex)).data = b :: rest
    rw [List.map_cons, stringJoin_cons, String.data_append, hdata]
    show bufferFromHex (c1 :: c2 ::
      (String.join (List.map byteToHex rest)).data) = b :: rest
    rw [bufferFromHex, h1, h2]
    show (if v1 < 16 ∧ v2 < 16 then
        (v1 * 16 + v2) :: bufferFromHex (String.join (List.map byteToHex rest)).data
      else []) = b :: rest
    rw [if_pos ⟨hv1, hv2⟩, hsum]
    rw [show String.join (List.map byteToHex rest) = bufferToHex rest from rfl]
    rw [ih (fun x hx => h x (List.mem_cons_of_mem b hx))]

theorem bufferFromLatin1_lt (cs : List Char) : ∀ b ∈ bufferFromLatin1 cs, b < 256 := by
  intro b hb
  obtain ⟨c, _, hc⟩ := List.mem_map.mp hb
  rw [← hc]
  exact Nat.mod_lt _ (by norm_num)

theorem latin1_roundtrip (bs : List Nat) (h : ∀ b ∈ bs, b < 256) :
    bufferFromLatin1 (bufferToLatin1 bs).data = bs := by
  show List.map (fun c => c.toNat % 256) (List.map (fun b => Char.ofNat (b % 256)) bs) = bs
  rw [List.map_map]
  have hcongr : ∀ b ∈ bs,
      ((fun c : Char => c.toNat % 256) ∘ fun b => Char.ofNat (b % 256)) b = b :=
    fun b hb => latin1_byte b (h b hb)
  rw [List.map_congr_left hcongr]
  simp

theorem chunkByte_lt (r : Nat) (body : List Char) (nb j : Nat) :
    chunkByte r body nb j < 256 := by
  unfold chunkByte
  split
  · rename_i v hv
    have h1 := Int.emod_nonneg v (by norm_num : (256 : Int) ≠ 0)
    have h2 := Int.emod_lt_of_pos v (by norm_num : (0 : Int) < 256)
    omega
  · norm_num

theorem numericStringToBuffer_lt (s : String) (bs : List Nat)
    (h : numericStringToBuffer s = .ok bs) : ∀ b ∈ bs, b < 256 := by
  unfold numericStringToBuffer at h
  split at h
  · simp only [] at h
    cases h
    intro b hb
    obtain ⟨j, _, hj⟩ := List.mem_map.mp hb
    rw [← hj]
    exact chunkByte_lt 16 _ 2 j
  · split at h
    · simp only [] at h
      cases h
      intro b hb
      obtain ⟨j, _, hj⟩ := List.mem_map.mp hb
      rw [← hj]
      exact chunkByte_lt 2 _ 8 j
    · cases h

theorem byteToHex_data_len (b : Nat) (hb : b < 256) : (byteToHex b).data.length = 2 := by
  obtain ⟨c1, c2, v1, v2, hdata, _, _, _, _, _⟩ := byteToHex_spec b hb
  rw [hdata]
  rfl

theorem dec128Render_data_len (bs : List Nat) :
    ∀ k, (∀ i, i ≤ k → bs.getD i 0 < 256) →
      (dec128Render bs k).data.length = 2 * (k + 1) := by
  intro k
  induction k with
  | zero =>
    intro hB
    rw [dec128Render]
    simpa using byteToHex_data_len _ (hB 0 le_rfl)
  | succ i ih =>
    intro hB
    rw [dec128Render, String.data_append, List.length_append,
      byteToHex_data_len _ (hB (i + 1) le_rfl), ih (fun j hj => hB j (by omega))]
    omega

theorem numericChunk_cons2_top (d1 d2 : Char) (body : List Char) (k : Nat)
    (hlen : body.length = 2 * (k + 1)) :
    numericChunk (d1 :: d2 :: body) 2 (k + 1) = [d1, d2] := by
  unfold numericChunk
  simp only []
  have h1 : (d1 :: d2 :: body).length = 2 * (k + 2) := by
    simp only [List.length_cons, hlen]
    omega
  rw [h1]
  have e1 : 2 * (k + 2) - (k + 1 + 1) * 2 = 0 := by omega
  rw [e1]
  have e2 : 2 * (k + 2) - (k + 1) * 2 - 0 = 2 := by omega
  rw [e2, List.drop_zero]
  rfl

theorem numericChunk_cons2_rest (d1 d2 : Char) (body : List Char) (k j : Nat)
    (hlen : body.length = 2 * (k + 1)) (hj : j ≤ k) :
    numericChunk (d1 :: d2 :: body) 2 j = numericChunk body 2 j := by
  unfold numericChunk
  simp only []
  have h1 : (d1 :: d2 :: body).length = 2 * (k + 2) := by
    simp only [List.length_cons, hlen]
    omega
  rw [h1, hlen]
  have e1 : 2 * (k + 2) - (j + 1) * 2 = 2 * (k + 1) - (j + 1) * 2 + 1 + 1 := by omega
  have e2 : 2 * (k + 2) - j * 2 - (2 * (k + 2) - (j + 1) * 2) =
      2 * (k + 1) - j * 2 - (2 * (k + 1) - (j + 1) * 2) := by omega
  rw [e2, e1, List.drop_succ_cons, List.drop_succ_cons]

theorem numericChunk_render (bs : List Nat) :
    ∀ k, (∀ i, i ≤ k → bs.getD i 0 < 256) →
      ∀ j, j ≤ k →
        numericChunk (dec128Render bs k).data 2 j = (byteToHex (bs.getD j 0)).data := by
  intro k
  induction k with
  | zero =>
    intro hB j hj
    have hj0 : j = 0 := by omega
    subst hj0
    obtain ⟨c1, c2, v1, v2, hdata, _, _, _, _, _⟩ := byteToHex_spec _ (hB 0 le_rfl)
    rw [dec128Render, hdata]
    rfl
  | succ i ih =>
    intro hB j hj
    obtain ⟨d1, d2, v1, v2, hdata, _, _, _, _, _⟩ := byteToHex_spec _ (hB (i + 1) le_rfl)
    have hlen : (dec128Render bs i).data.length = 2 * (i + 1) :=
      dec128Render_data_len bs i (fun m hm => hB m (by omega))
    rw [dec128Render, String.data_append, hdata]
    by_cases hji : j = i + 1
    · subst hji
      rw [show [d1, d2] ++ (dec128Render bs i).data =
          d1 :: d2 :: (dec128Render bs i).data from rfl]
      rw [numericChunk_cons2_top d1 d2 _ i hlen, ← hdata]
    · have hjle : j ≤ i := by omega
      rw [show [d1, d2] ++ (dec128Render bs i).data =
          d1 :: d2 :: (dec128Render bs i).data from rfl]
      rw [numericChunk_cons2_rest d1 d2 _ i j hlen hjle]
      exact ih (fun m hm => hB m (by omega)) j hjle

theorem jsStartsWith_0x (t : String) : jsStartsWith ("0x" ++ t) "0x" = true := by
  show List.isPrefixOf "0x".data ("0x" ++ t).data = true
  rw [String.data_append, show "0x".data = ['0', 'x'] from rfl]
  simp [List.isPrefixOf]

theorem getD_map_range (n : Nat) (f : Nat → Nat) (i : Nat) (h : i < n) :
    ((List.range n).map f).getD i 0 = f i := by
  have hlen : i < ((List.range n).map f).length := by
    simpa using h
  rw [List.getD_eq_getElem _ 0 hlen, List.getElem_map, List.getElem_range]

theorem numeric_canonical (bs : List Nat) (k : Nat)
    (hB : ∀ i, i ≤ k → bs.getD i 0 < 256) :
    numericStringToBuffer ("0x" ++ dec128Render bs k) =
      .ok ((List.range (k + 1)).map (fun j => bs.getD j 0)) := by
  unfold numericStringToBuffer
  rw [if_pos (jsStartsWith_0x (dec128Render bs k))]
  simp only []
  have hbody : ("0x" ++ dec128Render bs k).data.drop 2 = (dec128Render bs k).data := by
    rw [String.data_append]
    rfl
  rw [hbody]
  have hlen : (dec128Render bs k).data.length = 2 * (k + 1) :=
    dec128Render_data_len bs k hB
  rw [hlen]
  have hcount : (2 * (k + 1) + 1) / 2 = k + 1 := by omega
  rw [hcount]
  apply congrArg
  apply List.map_congr_left
  intro j hj
  have hjk : j ≤ k := by
    have := List.mem_range.mp hj
    omega
  have hchunk := numericChunk_render bs k hB j hjk
  unfold chunkByte
  rw [hchunk]
  rw [show String.mk (byteToHex (bs.getD j 0)).data = byteToHex (bs.getD j 0) from rfl]
  rw [byteToHex_parse _ (hB j hjk)]
  show ((bs.getD j 0 : Int) % 256).toNat = bs.getD j 0
  have hblt := hB j hjk
  omega

theorem dec128TopIdx_some_ne (bs : List Nat) :
    ∀ n k, dec128TopIdx bs n = some k → bs.getD k 0 ≠ 0 := by
  intro n
  induction n with
  | zero =>
    intro k h
    rw [dec128TopIdx] at h
    split at h
    · rename_i hne
      cases h
      exact hne
    · cases h
  | succ i ih =>
    intro k h
    rw [dec128TopIdx] at h
    split at h
    · rename_i hne
      cases h
      exact hne
    · exact ih k h

theorem dec128Render_lower (bs : List Nat) :
    ∀ k, (∀ i, i ≤ k → bs.getD i 0 < 256) →
      ∀ c ∈ (dec128Render bs k).data, latinLower c = c := by
  intro k
  induction k with
  | zero =>
    intro hB c hc
    exact byteToHex_lower _ (hB 0 le_rfl) c hc
  | succ i ih =>
    intro hB c hc
    rw [dec128Render, String.data_append] at hc
    rcases List.mem_append.mp hc with h1 | h2
    · exact byteToHex_lower _ (hB (i + 1) le_rfl) c h1
    · exact ih (fun j hj => hB j (by omega)) c h2

/-- The canonical hex rendering of a byte buffer converts back to the
trimmed buffer, which renders to the same string: the `int128` storage
format stabilizes after the first round trip. -/
theorem dec128_stable (bs : List Nat) (hall : ∀ b ∈ bs, b < 256) :
    ∃ cs, int128ToDb (.str (dec128ToHexString bs)) = .ok (.mDecimal128 cs) ∧
      dec128ToHexString cs = dec128ToHexString bs := by
  have h001 : int128ToDb (.str "0x00") = .ok (.mDecimal128 [0]) := by decide
  have h002 : dec128ToHexString [0] = "0x00" := by decide
  rcases hlen : bs.length with _ | n
  · have hs : dec128ToHexString bs = "0x00" := by
      unfold dec128ToHexString
      rw [hlen]
    rw [hs]
    exact ⟨[0], h001, h002⟩
  · rcases htop : dec128TopIdx bs n with _ | k
    · have hs : dec128ToHexString bs = "0x00" := by
        unfold dec128ToHexString
        simp only [hlen]
        rw [htop]
      rw [hs]
      exact ⟨[0], h001, h002⟩
    · have hs : dec128ToHexString bs = "0x" ++ dec128Render bs k := by
        unfold dec128ToHexString
        simp only [hlen]
        rw [htop]
      have hk : k ≤ n := dec128TopIdx_le bs n k htop
      have hB : ∀ i, i ≤ k → bs.getD i 0 < 256 := by
        intro i hi
        have hilen : i < bs.length := by omega
        rw [List.getD_eq_getElem bs 0 hilen]
        exact hall _ (List.getElem_mem hilen)
      have hcsD : ∀ i, i ≤ k →
          ((List.range (k + 1)).map (fun j => bs.getD j 0)).getD i 0 = bs.getD i 0 :=
        fun i hi => getD_map_range (k + 1) _ i (by omega)
      have hcslen : ((List.range (k + 1)).map (fun j => bs.getD j 0)).length = k + 1 := by
        simp
      refine ⟨(List.range (k + 1)).map (fun j => bs.getD j 0), ?_, ?_⟩
      · rw [hs]
        have hlower : jsToLower ("0x" ++ dec128Render bs k) =
            "0x" ++ dec128Render bs k := by
          apply jsToLower_fixed
          intro c hc
          rw [String.data_append] at hc
          rcases List.mem_append.mp hc with hc1 | hc2
          · rcases List.mem_cons.mp hc1 with hce | hc1b
            · rw [hce]
              decide
            · rcases List.mem_cons.mp hc1b with hce | hc1c
              · rw [hce]
                decide
              · exact absurd hc1c (List.not_mem_nil c)
          · exact dec128Render_lower bs k hB c hc2
        have hdef : int128ToDb (.str ("0x" ++ dec128Render bs k)) =
            (if jsStartsWith (jsToLower ("0x" ++ dec128Render bs k)) "0x" = true ∨
                jsStartsWith (jsToLower ("0x" ++ dec128Render bs k)) "b" = true then
              (numericStringToBuffer ("0x" ++ dec128Render bs k)).map JsValue.mDecimal128
            else .error (.notModelled "Decimal128.fromString decimal encoding")) := rfl
        rw [hdef, hlower,
          if_pos (Or.inl (jsStartsWith_0x (dec128Render bs k))),
          numeric_canonical bs k hB]
        rfl
      · have hne : bs.getD k 0 ≠ 0 := dec128TopIdx_some_ne bs n k htop
        have hcstop : dec128TopIdx ((List.range (k + 1)).map (fun j => bs.getD j 0)) k =
            some k := by
          cases k with
          | zero =>
            rw [dec128TopIdx]
            rw [if_pos (by rw [hcsD 0 le_rfl]; exact hne)]
          | succ m =>
            rw [dec128TopIdx]
            rw [if_pos (by rw [hcsD (m + 1) le_rfl]; exact hne)]
        have hsC : dec128ToHexString ((List.range (k + 1)).map (fun j => bs.getD j 0)) =
            "0x" ++ dec128Render ((List.range (k + 1)).map (fun j => bs.getD j 0)) k := by
          unfold dec128ToHexString
          simp only [hcslen]
          rw [hcstop]
        rw [hsC, hs]
        rw [dec128Render_congr ((List.range (k + 1)).map (fun j => bs.getD j 0)) bs k
          (fun j hj => hcsD j hj)]

/-- A storage-leaf shape: anything `convertElement`'s field loop sends
through the converter registry rather than recursing or throwing. -/
def isLeaf : JsValue → Bool
  | .obj _ | .arr _ | .null | .undef => false
  | _ => true

/-- The round-trip conformance predicate for a leaf value against a
`(mongoType, encoding)` pair: the shapes for which the forward
conversion succeeds and the first round trip reaches a stable value
(mirroring the guard structure of each built-in converter in
`types.js`; an unregistered type converts by identity and accepts any
leaf). -/
def leafConforms (t e v : JsValue) : Bool :=
  match t with
  | .str "objectId" =>
    match v with
    | .str s => decide (s.length = 24) && s.data.all isHexChar
    | _ => false
  | .str "int32" => true
  | .str "int64" =>
    match v with
    | .num _ => true
    | .str s =>
      match int64ToDb (.str s) with
      | .ok _ => true
      | .error _ => false
    | _ => false
  | .str "int128" =>
    match v with
    | .str s => jsStartsWith s "0x" || jsStartsWith s "b"
    | .num n => decide (-(2 ^ 63) ≤ n) && decide (n < 2 ^ 63)
    | .buffer bs => bs.all (fun b => decide (b < 256))
    | _ => false
  | .str "binary" =>
    match v, e with
    | .str _, .str "hex" => true
    | .str _, .str "latin1" => true
    | _, _ => false
  | .str "date" =>
    match v with
    | .num n => decide (n ≠ 0)
    | .date _ => true
    | _ => false
  | _ => true

theorem valueToDbFormat_default (v t e : JsValue)
    (h1 : t ≠ .str "objectId") (h2 : t ≠ .str "int32") (h3 : t ≠ .str "int64")
    (h4 : t ≠ .str "int128") (h5 : t ≠ .str "binary") (h6 : t ≠ .str "date") :
    valueToDbFormat v t e = .ok v := by
  unfold valueToDbFormat
  split
  · exact absurd rfl h1
  · exact absurd rfl h2
  · exact absurd rfl h3
  · exact absurd rfl h4
  · exact absurd rfl h5
  · exact absurd rfl h6
  · rfl

theorem dbFormatToValue_default (v t e : JsValue)
    (h1 : t ≠ .str "objectId") (h2 : t ≠ .str "int32") (h3 : t ≠ .str "int64")
    (h4 : t ≠ .str "int128") (h5 : t ≠ .str "binary") (h6 : t ≠ .str "date") :
    dbFormatToValue v t e = .ok v := by
  unfold dbFormatToValue
  split
  · exact absurd rfl h1
  · exact absurd rfl h2
  · exact absurd rfl h3
  · exact absurd rfl h4
  · exact absurd rfl h5
  · exact absurd rfl h6
  · rfl

theorem startsWith_0x_shape (s : String) (h : jsStartsWith s "0x" = true) :
    ∃ rest, s.data = '0' :: 'x' :: rest := by
  unfold jsStartsWith at h
  rw [show "0x".data = ['0', 'x'] from rfl] at h
  match hd : s.data with
  | [] => rw [hd] at h; exact Bool.noConfusion h
  | [d] => rw [hd] at h; simp [List.isPrefixOf] at h
  | d1 :: d2 :: rest =>
    rw [hd] at h
    simp only [List.isPrefixOf, Bool.and_eq_true, beq_iff_eq] at h
    exact ⟨rest, by rw [← h.1, ← h.2.1]⟩

theorem startsWith_b_shape (s : String) (h : jsStartsWith s "b" = true) :
    ∃ rest, s.data = 'b' :: rest := by
  unfold jsStartsWith at h
  rw [show "b".data = ['b'] from rfl] at h
  match hd : s.data with
  | [] => rw [hd] at h; exact Bool.noConfusion h
  | d :: rest =>
    rw [hd] at h
    simp only [List.isPrefixOf, Bool.and_eq_true, beq_iff_eq] at h
    exact ⟨rest, by rw [← h.1]⟩

theorem jsToLower_prefix_0x (s : String) (h : jsStartsWith s "0x" = true) :
    jsStartsWith (jsToLower s) "0x" = true := by
  obtain ⟨rest, hd⟩ := startsWith_0x_shape s h
  unfold jsStartsWith
  rw [jsToLower_data, hd, show "0x".data = ['0', 'x'] from rfl,
    List.map_cons, List.map_cons,
    show latinLower '0' = '0' from by decide,
    show latinLower 'x' = 'x' from by decide]
  simp [List.isPrefixOf]

theorem jsToLower_prefix_b (s : String) (h : jsStartsWith s "b" = true) :
    jsStartsWith (jsToLower s) "b" = true := by
  obtain ⟨rest, hd⟩ := startsWith_b_shape s h
  unfold jsStartsWith
  rw [jsToLower_data, hd, show "b".data = ['b'] from rfl,
    List.map_cons, show latinLower 'b' = 'b' from by decide]
  simp [List.isPrefixOf]

theorem numericStringToBuffer_ok (s : String)
    (hc : jsStartsWith s "0x" = true ∨ jsStartsWith s "b" = true) :
    ∃ bs, numericStringToBuffer s = .ok bs := by
  unfold numericStringToBuffer
  by_cases h0 : jsStartsWith s "0x" = true
  · rw [if_pos h0]
    exact ⟨_, rfl⟩
  · rcases hc with h | h
    · exact absurd h h0
    · rw [if_neg h0, if_pos h]
      exact ⟨_, rfl⟩

theorem int128ToDb_str_ok (s : String)
    (hc : jsStartsWith s "0x" = true ∨ jsStartsWith s "b" = true) :
    ∃ bs, int128ToDb (.str s) = .ok (.mDecimal128 bs) ∧ ∀ b ∈ bs, b < 256 := by
  obtain ⟨bs, hbs⟩ := numericStringToBuffer_ok s hc
  have hcond : jsStartsWith (jsToLower s) "0x" = true ∨
      jsStartsWith (jsToLower s) "b" = true := by
    rcases hc with h | h
    · exact Or.inl (jsToLower_prefix_0x s h)
    · exact Or.inr (jsToLower_prefix_b s h)
  refine ⟨bs, ?_, numericStringToBuffer_lt s bs hbs⟩
  have hdef : int128ToDb (.str s) =
      (if jsStartsWith (jsToLower s) "0x" = true ∨
          jsStartsWith (jsToLower s) "b" = true then
        (numericStringToBuffer s).map JsValue.mDecimal128
      else .error (.notModelled "Decimal128.fromString decimal encoding")) := rfl
  rw [hdef, if_pos hcond, hbs]
  rfl

theorem int128ToDb_num_ok (n : Int) (hlo : -(2 ^ 63) ≤ n) (hhi : n < 2 ^ 63) :
    ∃ bs, int128ToDb (.num n) = .ok (.mDecimal128 bs) ∧ ∀ b ∈ bs, b < 256 := by
  refine ⟨(List.range 8).map (fun i => ((n % 2 ^ 64).toNat >>> (8 * i)) % 256) ++
    List.replicate 8 0, ?_, ?_⟩
  · have hdef : int128ToDb (.num n) =
        (if -(2 ^ 63) ≤ n ∧ n < 2 ^ 63 then
          Except.ok (JsValue.mDecimal128
            ((List.range 8).map (fun i => ((n % 2 ^ 64).toNat >>> (8 * i)) % 256) ++
              List.replicate 8 0))
        else Except.error (JsErr.jsError "The value of bigint is out of range")) := rfl
    rw [hdef, if_pos ⟨hlo, hhi⟩]
  · intro b hb
    rcases List.mem_append.mp hb with hb1 | hb2
    · obtain ⟨i, _, hi⟩ := List.mem_map.mp hb1
      rw [← hi]
      exact Nat.mod_lt _ (by norm_num)
    · rw [List.eq_of_mem_replicate hb2]
      norm_num

theorem int128_after (bs : List Nat) (hlt : ∀ b ∈ bs, b < 256) :
    ∃ v' w', int128FromDb (.mDecimal128 bs) = .ok v' ∧ isLeaf v' = true ∧
      int128ToDb v' = .ok w' ∧ isLeaf w' = true ∧
      int128FromDb w' = .ok v' := by
  obtain ⟨cs, hcs1, hcs2⟩ := dec128_stable bs hlt
  refine ⟨.str (dec128ToHexString bs), .mDecimal128 cs, rfl, rfl, hcs1, rfl, ?_⟩
  show Except.ok (JsValue.str (dec128ToHexString cs)) =
    Except.ok (JsValue.str (dec128ToHexString bs))
  rw [hcs2]

/-- The leaf round-trip: a conforming leaf value converts forward to a
storage leaf, back to a value leaf, and that value is a fixed point of
the round trip. -/
theorem leaf_roundtrip (t e v : JsValue) (hleaf : isLeaf v = true)
    (hc : leafConforms t e v = true) :
    ∃ w v' w', valueToDbFormat v t e = .ok w ∧ isLeaf w = true ∧
      dbFormatToValue w t e = .ok v' ∧ isLeaf v' = true ∧
      valueToDbFormat v' t e = .ok w' ∧ isLeaf w' = true ∧
      dbFormatToValue w' t e = .ok v' := by
  by_cases h1 : t = .str "objectId"
  · subst h1
    cases v <;> first | exact Bool.noConfusion hc | skip
    rename_i s
    have hc2 : (decide (s.length = 24) && s.data.all isHexChar) = true := hc
    rw [Bool.and_eq_true, decide_eq_true_eq] at hc2
    obtain ⟨f1, f2, f3⟩ := objectId_rt s hc2.1 hc2.2
    exact ⟨.mObjectId (jsToLower s), .str (jsToLower s), .mObjectId (jsToLower s),
      f1, rfl, f2, rfl, f3, rfl, f2⟩
  by_cases h2 : t = .str "int32"
  · subst h2
    obtain ⟨m, f1, f2, f3⟩ := int32_rt v
    exact ⟨.mInt32 m, .num m, .mInt32 m, f1, rfl, f2, rfl, f3, rfl, f2⟩
  by_cases h3 : t = .str "int64"
  · subst h3
    have hok : ∃ w0, int64ToDb v = .ok w0 := by
      cases v <;> first | exact Bool.noConfusion hc | skip
      · exact ⟨_, rfl⟩
      · rename_i s
        have hc2 : (match int64ToDb (.str s) with
          | .ok _ => true
          | .error _ => false) = true := hc
        cases hw : int64ToDb (.str s) with
        | ok w0 => exact ⟨w0, rfl⟩
        | error er =>
          rw [hw] at hc2
          exact Bool.noConfusion hc2
    obtain ⟨w0, hw0⟩ := hok
    obtain ⟨z, rfl, g1, g2, g3, g4⟩ := int64_rt v w0 hw0
    refine ⟨.mLong z, .num (wrap32 z), .mLong (wrap32 z), hw0, rfl, g1, rfl, g2, rfl, ?_⟩
    show int64FromDb (.mLong (wrap32 z)) = Except.ok (JsValue.num (wrap32 z))
    rw [g3, g4]
  by_cases h4 : t = .str "int128"
  · subst h4
    have hok : ∃ bs, int128ToDb v = .ok (.mDecimal128 bs) ∧ ∀ b ∈ bs, b < 256 := by
      cases v <;> first | exact Bool.noConfusion hc | skip
      · rename_i n
        have hc2 : (decide (-(2 ^ 63) ≤ n) && decide (n < 2 ^ 63)) = true := hc
        rw [Bool.and_eq_true, decide_eq_true_eq, decide_eq_true_eq] at hc2
        exact int128ToDb_num_ok n hc2.1 hc2.2
      · rename_i s
        have hc2 : (jsStartsWith s "0x" || jsStartsWith s "b") = true := hc
        have hc3 : jsStartsWith s "0x" = true ∨ jsStartsWith s "b" = true := by
          simpa using hc2
        exact int128ToDb_str_ok s hc3
      · rename_i bs
        have hc2 : bs.all (fun b => decide (b < 256)) = true := hc
        refine ⟨bs, rfl, ?_⟩
        intro b hb
        simpa using List.all_eq_true.mp hc2 b hb
    obtain ⟨bs, hok1, hlt⟩ := hok
    obtain ⟨v', w', p1, p2, p3, p4, p5⟩ := int128_after bs hlt
    exact ⟨.mDecimal128 bs, v', w', hok1, rfl, p1, p2, p3, p4, p5⟩
  by_cases h5 : t = .str "binary"
  · subst h5
    unfold leafConforms at hc
    simp only [] at hc
    split at hc
    · rename_i s
      refine ⟨.mBinary (bufferFromHex s.data),
        .str (bufferToHex (bufferFromHex s.data)),
        .mBinary (bufferFromHex s.data), rfl, rfl, rfl, rfl, ?_, rfl, rfl⟩
      show Except.ok (JsValue.mBinary
          (bufferFromHex (bufferToHex (bufferFromHex s.data)).data)) =
        Except.ok (JsValue.mBinary (bufferFromHex s.data))
      rw [bufferFromHex_toHex _ (bufferFromHex_lt s.data)]
    · rename_i s
      refine ⟨.mBinary (bufferFromLatin1 s.data),
        .str (bufferToLatin1 (bufferFromLatin1 s.data)),
        .mBinary (bufferFromLatin1 s.data), rfl, rfl, rfl, rfl, ?_, rfl, rfl⟩
      show Except.ok (JsValue.mBinary
          (bufferFromLatin1 (bufferToLatin1 (bufferFromLatin1 s.data)).data)) =
        Except.ok (JsValue.mBinary (bufferFromLatin1 s.data))
      rw [latin1_roundtrip _ (bufferFromLatin1_lt s.data)]
    · exact Bool.noConfusion hc
  by_cases h6 : t = .str "date"
  · subst h6
    cases v <;> first | exact Bool.noConfusion hc | skip
    · rename_i n
      have hc2 : decide (n ≠ 0) = true := hc
      have hn : n ≠ 0 := of_decide_eq_true hc2
      have htr : jsTruthy (.num n) = true := by
        show (n != 0) = true
        simpa using hn
      have hto : dateToDb (.num n) = .ok (.date n) := by
        unfold dateToDb
        rw [if_pos htr]
      exact ⟨.date n, .date n, .date n, hto, rfl, rfl, rfl, rfl, rfl, rfl⟩
    · rename_i t0
      exact ⟨.date t0, .date t0, .date t0, rfl, rfl, rfl, rfl, rfl, rfl, rfl⟩
  · have hto := valueToDbFormat_default v t e h1 h2 h3 h4 h5 h6
    have hfrom := dbFormatToValue_default v t e h1 h2 h3 h4 h5 h6
    exact ⟨v, v, v, hto, hleaf, hfrom, hleaf, hto, hleaf, hfrom⟩

mutual

/-- Document conformance for one element of the transcoding walk:
`$ref` resolution must succeed, object fields and array items recurse
exactly as `convertElement` does, and every leaf satisfies
`leafConforms` against the `(mongoType, encoding)` pair the loop reads
for it; `null`/`undefined` members never conform (see C10), nor does a
top-level primitive. -/
def conformsEl (root : JsValue) (schema data : JsValue) : Bool :=
  match resolveRefTranscoder root schema with
  | .error _ => false
  | .ok sch =>
    match data with
    | .obj fs => conformsFields root sch fs
    | .arr xs => conformsItems root sch 0 xs
    | _ => false
termination_by structural data

def conformsFields (root sch : JsValue) : List (String × JsValue) → Bool
  | [] => true
  | (k, v) :: rest =>
    (match v with
     | .obj gs => conformsEl root (propSchemaOf sch k) (.obj gs)
     | .arr ys => conformsEl root (propSchemaOf sch k) (.arr ys)
     | .null => false
     | .undef => false
     | w => leafConforms (leafTypeAndEnc sch k).1 (leafTypeAndEnc sch k).2 w) &&
    conformsFields root sch rest
termination_by structural fs => fs

def conformsItems (root sch : JsValue) (i : Nat) : List JsValue → Bool
  | [] => true
  | x :: rest =>
    (match x with
     | .obj gs => conformsEl root (selectItemSchema sch i) (.obj gs)
     | .arr ys => conformsEl root (selectItemSchema sch i) (.arr ys)
     | .null => false
     | .undef => false
     | w =>
       leafConforms
         (if jsTruthy (selectItemSchema sch i) then
           jsGet (selectItemSchema sch i) "mongoType" else .str "")
         (if jsTruthy (selectItemSchema sch i) then
           jsGet (selectItemSchema sch i) "encoding" else .str "")
         w) &&
    conformsItems root sch (i + 1) rest
termination_by structural xs => xs

end

/-- The head step of `conformsFields`, named for reasoning. -/
def conformsFieldVal (root sch : JsValue) (k : String) : JsValue → Bool
  | .obj gs => conformsEl root (propSchemaOf sch k) (.obj gs)
  | .arr ys => conformsEl root (propSchemaOf sch k) (.arr ys)
  | .null => false
  | .undef => false
  | w => leafConforms (leafTypeAndEnc sch k).1 (leafTypeAndEnc sch k).2 w

/-- The head step of `conformsItems`, named for reasoning. -/
def conformsItemVal (root sch : JsValue) (i : Nat) : JsValue → Bool
  | .obj gs => conformsEl root (selectItemSchema sch i) (.obj gs)
  | .arr ys => conformsEl root (selectItemSchema sch i) (.arr ys)
  | .null => false
  | .undef => false
  | w =>
    leafConforms
      (if jsTruthy (selectItemSchema sch i) then
        jsGet (selectItemSchema sch i) "mongoType" else .str "")
      (if jsTruthy (selectItemSchema sch i) then
        jsGet (selectItemSchema sch i) "encoding" else .str "")
      w

theorem conformsFields_cons (root sch : JsValue) (k : String) (v : JsValue)
    (rest : List (String × JsValue)) :
    conformsFields root sch ((k, v) :: rest) =
      (conformsFieldVal root sch k v && conformsFields root sch rest) := by
  cases v <;> rfl

theorem conformsItems_cons (root sch : JsValue) (i : Nat) (x : JsValue)
    (rest : List JsValue) :
    conformsItems root sch i (x :: rest) =
      (conformsItemVal root sch i x && conformsItems root sch (i + 1) rest) := by
  cases x <;> rfl

theorem convertFields_cons (root : JsValue)
    (cv : JsValue → JsValue → JsValue → Except JsErr JsValue)
    (sch : JsValue) (k : String) (v : JsValue) (rest : List (String × JsValue)) :
    convertFields root cv sch ((k, v) :: rest) = (do
      let v2 ← convertFieldVal root cv sch k v
      let rest2 ← convertFields root cv sch rest
      pure ((k, v2) :: rest2)) := by
  cases v <;> rfl

theorem convertItems_cons (root : JsValue)
    (cv : JsValue → JsValue → JsValue → Except JsErr JsValue)
    (sch : JsValue) (i : Nat) (x : JsValue) (rest : List JsValue) :
    convertItems root cv sch i (x :: rest) = (do
      let x2 ← convertItemVal root cv sch i x
      let rest2 ← convertItems root cv sch (i + 1) rest
      pure (x2 :: rest2)) := by
  cases x <;> rfl

theorem convertFieldVal_leaf (root : JsValue)
    (cv : JsValue → JsValue → JsValue → Except JsErr JsValue)
    (sch : JsValue) (k : String) (w : JsValue) (h : isLeaf w = true) :
    convertFieldVal root cv sch k w =
      cv w (leafTypeAndEnc sch k).1 (leafTypeAndEnc sch k).2 := by
  cases w <;> first | exact Bool.noConfusion h | rfl

theorem convertItemVal_leaf (root : JsValue)
    (cv : JsValue → JsValue → JsValue → Except JsErr JsValue)
    (sch : JsValue) (i : Nat) (w : JsValue) (h : isLeaf w = true) :
    convertItemVal root cv sch i w =
      cv w (if jsTruthy (selectItemSchema sch i) then
          jsGet (selectItemSchema sch i) "mongoType" else .str "")
        (if jsTruthy (selectItemSchema sch i) then
          jsGet (selectItemSchema sch i) "encoding" else .str "") := by
  cases w <;> first | exact Bool.noConfusion h | rfl

theorem conformsFieldVal_leaf (root sch : JsValue) (k : String) (w : JsValue)
    (h : isLeaf w = true) :
    conformsFieldVal root sch k w =
      leafConforms (leafTypeAndEnc sch k).1 (leafTypeAndEnc sch k).2 w := by
  cases w <;> first | exact Bool.noConfusion h | rfl

theorem conformsItemVal_leaf (root sch : JsValue) (i : Nat) (w : JsValue)
    (h : isLeaf w = true) :
    conformsItemVal root sch i w =
      leafConforms
        (if jsTruthy (selectItemSchema sch i) then
          jsGet (selectItemSchema sch i) "mongoType" else .str "")
        (if jsTruthy (selectItemSchema sch i) then
          jsGet (selectItemSchema sch i) "encoding" else .str "")
        w := by
  cases w <;> first | exact Bool.noConfusion h | rfl

theorem nonLeaf_shape (x : JsValue) (h : ¬ isLeaf x = true) :
    (∃ gs, x = .obj gs) ∨ (∃ ys, x = .arr ys) ∨ x = .null ∨ x = .undef := by
  cases x <;> first
    | exact absurd rfl h
    | exact Or.inl ⟨_, rfl⟩
    | exact Or.inr (Or.inl ⟨_, rfl⟩)
    | exact Or.inr (Or.inr (Or.inl rfl))
    | exact Or.inr (Or.inr (Or.inr rfl))

theorem convertElement_obj_ok (root : JsValue)
    (cv : JsValue → JsValue → JsValue → Except JsErr JsValue)
    (schema : JsValue) (fs : List (String × JsValue)) (w : JsValue)
    (h : convertElement root cv schema (.obj fs) = .ok w) :
    ∃ hs, w = .obj hs := by
  rw [convertElement] at h
  cases hres : resolveRefTranscoder root schema with
  | error e =>
    rw [hres, exceptBind_err] at h
    cases h
  | ok sch =>
    rw [hres, exceptBind_ok] at h
    simp only [] at h
    cases hcf : convertFields root cv sch fs with
    | error e =>
      rw [hcf, exceptBind_err] at h
      cases h
    | ok out =>
      rw [hcf, exceptBind_ok] at h
      cases h
      exact ⟨out, rfl⟩

theorem convertElement_arr_ok (root : JsValue)
    (cv : JsValue → JsValue → JsValue → Except JsErr JsValue)
    (schema : JsValue) (xs : List JsValue) (w : JsValue)
    (h : convertElement root cv schema (.arr xs) = .ok w) :
    ∃ ys, w = .arr ys := by
  rw [convertElement] at h
  cases hres : resolveRefTranscoder root schema with
  | error e =>
    rw [hres, exceptBind_err] at h
    cases h
  | ok sch =>
    rw [hres, exceptBind_ok] at h
    simp only [] at h
    cases hcf : convertItems root cv sch 0 xs with
    | error e =>
      rw [hcf, exceptBind_err] at h
      cases h
    | ok out =>
      rw [hcf, exceptBind_ok] at h
      cases h
      exact ⟨out, rfl⟩

theorem conformsEl_shape (root schema d : JsValue)
    (h : conformsEl root schema d = true) :
    (∃ fs, d = .obj fs) ∨ (∃ ys, d = .arr ys) := by
  rw [conformsEl] at h
  cases hres : resolveRefTranscoder root schema with
  | error e =>
    rw [hres] at h
    exact Bool.noConfusion h
  | ok sch =>
    rw [hres] at h
    cases d <;> first | exact Bool.noConfusion h | skip
    · exact Or.inr ⟨_, rfl⟩
    · exact Or.inl ⟨_, rfl⟩

theorem exceptPure {ε α : Type} (a : α) : (pure a : Except ε α) = .ok a := rfl

theorem convert_rt_aux : ∀ (N : Nat), ∀ (v : JsValue), sizeOf v ≤ N →
    ∀ (root schema : JsValue), conformsEl root schema v = true →
      ∃ w v2, convertElement root valueToDbFormat schema v = .ok w ∧
        convertElement root dbFormatToValue schema w = .ok v2 ∧
        ∃ w2, convertElement root valueToDbFormat schema v2 = .ok w2 ∧
          convertElement root dbFormatToValue schema w2 = .ok v2 := by
  intro N
  induction N with
  | zero =>
    intro v h
    have := JsValue.sizeOf_pos v
    omega
  | succ n ih =>
    intro v hsz root schema hc
    rw [conformsEl] at hc
    cases hres : resolveRefTranscoder root schema with
    | error e =>
      rw [hres] at hc
      exact Bool.noConfusion hc
    | ok sch =>
      rw [hres] at hc
      have hstepO : ∀ (cv : JsValue → JsValue → JsValue → Except JsErr JsValue)
          (fs : List (String × JsValue)),
          convertElement root cv schema (.obj fs) = (do
            let out ← convertFields root cv sch fs
            pure (JsValue.obj out)) := by
        intro cv fs
        rw [convertElement, hres, exceptBind_ok]
      have hstepA : ∀ (cv : JsValue → JsValue → JsValue → Except JsErr JsValue)
          (xs : List JsValue),
          convertElement root cv schema (.arr xs) = (do
            let out ← convertItems root cv sch 0 xs
            pure (JsValue.arr out)) := by
        intro cv xs
        rw [convertElement, hres, exceptBind_ok]
      cases v <;> first | exact Bool.noConfusion hc | skip
      · -- top-level array
        rename_i xs
        have hca : conformsItems root sch 0 xs = true := hc
        have hil : ∀ (l : List JsValue), (∀ x ∈ l, sizeOf x ≤ n) →
            ∀ (i : Nat), conformsItems root sch i l = true →
            ∃ ws vs2, convertItems root valueToDbFormat sch i l = .ok ws ∧
              convertItems root dbFormatToValue sch i ws = .ok vs2 ∧
              ∃ ws2, convertItems root valueToDbFormat sch i vs2 = .ok ws2 ∧
                convertItems root dbFormatToValue sch i ws2 = .ok vs2 := by
          intro l
          induction l with
          | nil =>
            intro _ i _
            exact ⟨[], [], by rw [convertItems], by rw [convertItems], [],
              by rw [convertItems], by rw [convertItems]⟩
          | cons x rest ihl =>
            intro hszl i hcil
            rw [conformsItems_cons, Bool.and_eq_true] at hcil
            obtain ⟨hhead, htail⟩ := hcil
            obtain ⟨ws, vs2, q1, q2, ws2, q3, q4⟩ :=
              ihl (fun p hp => hszl p (List.mem_cons_of_mem _ hp)) (i + 1) htail
            have hxsz : sizeOf x ≤ n := hszl x (List.mem_cons_self x rest)
            by_cases hlx : isLeaf x = true
            · rw [conformsItemVal_leaf root sch i x hlx] at hhead
              obtain ⟨w, v2, w2, r1, rw1, r2, rv1, r3, rw2, r4⟩ :=
                leaf_roundtrip _ _ x hlx hhead
              refine ⟨w :: ws, v2 :: vs2, ?_, ?_, w2 :: ws2, ?_, ?_⟩
              · rw [convertItems_cons,
                  convertItemVal_leaf root valueToDbFormat sch i x hlx,
                  r1, exceptBind_ok, q1, exceptBind_ok, exceptPure]
              · rw [convertItems_cons,
                  convertItemVal_leaf root dbFormatToValue sch i w rw1,
                  r2, exceptBind_ok, q2, exceptBind_ok, exceptPure]
              · rw [convertItems_cons,
                  convertItemVal_leaf root valueToDbFormat sch i v2 rv1,
                  r3, exceptBind_ok, q3, exceptBind_ok, exceptPure]
              · rw [convertItems_cons,
                  convertItemVal_leaf root dbFormatToValue sch i w2 rw2,
                  r4, exceptBind_ok, q4, exceptBind_ok, exceptPure]
            · rcases nonLeaf_shape x hlx with ⟨gs, rfl⟩ | ⟨ys, rfl⟩ | rfl | rfl
              · have hh : conformsEl root (selectItemSchema sch i) (.obj gs) = true := hhead
                obtain ⟨w, v2, s1, s2, w2, s3, s4⟩ :=
                  ih (.obj gs) hxsz root (selectItemSchema sch i) hh
                obtain ⟨hs1, rfl⟩ := convertElement_obj_ok _ _ _ _ _ s1
                obtain ⟨gs2, rfl⟩ := convertElement_obj_ok _ _ _ _ _ s2
                obtain ⟨hs2, rfl⟩ := convertElement_obj_ok _ _ _ _ _ s3
                refine ⟨.obj hs1 :: ws, .obj gs2 :: vs2, ?_, ?_, .obj hs2 :: ws2, ?_, ?_⟩
                · rw [convertItems_cons,
                    show convertItemVal root valueToDbFormat sch i (.obj gs) =
                      convertElement root valueToDbFormat (selectItemSchema sch i)
                        (.obj gs) from rfl,
                    s1, exceptBind_ok, q1, exceptBind_ok, exceptPure]
                · rw [convertItems_cons,
                    show convertItemVal root dbFormatToValue sch i (.obj hs1) =
                      convertElement root dbFormatToValue (selectItemSchema sch i)
                        (.obj hs1) from rfl,
                    s2, exceptBind_ok, q2, exceptBind_ok, exceptPure]
                · rw [convertItems_cons,
                    show convertItemVal root valueToDbFormat sch i (.obj gs2) =
                      convertElement root valueToDbFormat (selectItemSchema sch i)
                        (.obj gs2) from rfl,
                    s3, exceptBind_ok, q3, exceptBind_ok, exceptPure]
                · rw [convertItems_cons,
                    show convertItemVal root dbFormatToValue sch i (.obj hs2) =
                      convertElement root dbFormatToValue (selectItemSchema sch i)
                        (.obj hs2) from rfl,
                    s4, exceptBind_ok, q4, exceptBind_ok, exceptPure]
              · have hh : conformsEl root (selectItemSchema sch i) (.arr ys) = true := hhead
                obtain ⟨w, v2, s1, s2, w2, s3, s4⟩ :=
                  ih (.arr ys) hxsz root (selectItemSchema sch i) hh
                obtain ⟨hs1, rfl⟩ := convertElement_arr_ok _ _ _ _ _ s1
                obtain ⟨gs2, rfl⟩ := convertElement_arr_ok _ _ _ _ _ s2
                obtain ⟨hs2, rfl⟩ := convertElement_arr_ok _ _ _ _ _ s3
                refine ⟨.arr hs1 :: ws, .arr gs2 :: vs2, ?_, ?_, .arr hs2 :: ws2, ?_, ?_⟩
                · rw [convertItems_cons,
                    show convertItemVal root valueToDbFormat sch i (.arr ys) =
                      convertElement root valueToDbFormat (selectItemSchema sch i)
                        (.arr ys) from rfl,
                    s1, exceptBind_ok, q1, exceptBind_ok, exceptPure]
                · rw [convertItems_cons,
                    show convertItemVal root dbFormatToValue sch i (.arr hs1) =
                      convertElement root dbFormatToValue (selectItemSchema sch i)
                        (.arr hs1) from rfl,
                    s2, exceptBind_ok, q2, exceptBind_ok, exceptPure]
                · rw [convertItems_cons,
                    show convertItemVal root valueToDbFormat sch i (.arr gs2) =
                      convertElement root valueToDbFormat (selectItemSchema sch i)
                        (.arr gs2) from rfl,
                    s3, exceptBind_ok, q3, exceptBind_ok, exceptPure]
                · rw [convertItems_cons,
                    show convertItemVal root dbFormatToValue sch i (.arr hs2) =
                      convertElement root dbFormatToValue (selectItemSchema sch i)
                        (.arr hs2) from rfl,
                    s4, exceptBind_ok, q4, exceptBind_ok, exceptPure]
              · exact Bool.noConfusion hhead
              · exact Bool.noConfusion hhead
        have hszl : ∀ x ∈ xs, sizeOf x ≤ n := by
          intro x hx
          have h1 : sizeOf x < sizeOf xs := List.sizeOf_lt_of_mem hx
          have h2 : sizeOf (JsValue.arr xs) = 1 + sizeOf xs := by simp
          omega
        obtain ⟨ws, vs2, q1, q2, ws2, q3, q4⟩ := hil xs hszl 0 hca
        refine ⟨.arr ws, .arr vs2, ?_, ?_, .arr ws2, ?_, ?_⟩
        · rw [hstepA valueToDbFormat xs, q1, exceptBind_ok, exceptPure]
        · rw [hstepA dbFormatToValue ws, q2, exceptBind_ok, exceptPure]
        · rw [hstepA valueToDbFormat vs2, q3, exceptBind_ok, exceptPure]
        · rw [hstepA dbFormatToValue ws2, q4, exceptBind_ok, exceptPure]
      · -- top-level object
        rename_i fs
        have hcf : conformsFields root sch fs = true := hc
        have hfl : ∀ (l : List (String × JsValue)), (∀ p ∈ l, sizeOf p.2 ≤ n) →
            conformsFields root sch l = true →
            ∃ ws vs2, convertFields root valueToDbFormat sch l = .ok ws ∧
              convertFields root dbFormatToValue sch ws = .ok vs2 ∧
              ∃ ws2, convertFields root valueToDbFormat sch vs2 = .ok ws2 ∧
                convertFields root dbFormatToValue sch ws2 = .ok vs2 := by
          intro l
          induction l with
          | nil =>
            intro _ _
            exact ⟨[], [], by rw [convertFields], by rw [convertFields], [],
              by rw [convertFields], by rw [convertFields]⟩
          | cons p rest ihl =>
            intro hszl hcfl
            obtain ⟨k, x⟩ := p
            rw [conformsFields_cons, Bool.and_eq_true] at hcfl
            obtain ⟨hhead, htail⟩ := hcfl
            obtain ⟨ws, vs2, q1, q2, ws2, q3, q4⟩ :=
              ihl (fun p hp => hszl p (List.mem_cons_of_mem _ hp)) htail
            have hxsz : sizeOf x ≤ n := hszl (k, x) (List.mem_cons_self (k, x) rest)
            by_cases hlx : isLeaf x = true
            · rw [conformsFieldVal_leaf root sch k x hlx] at hhead
              obtain ⟨w, v2, w2, r1, rw1, r2, rv1, r3, rw2, r4⟩ :=
                leaf_roundtrip _ _ x hlx hhead
              refine ⟨(k, w) :: ws, (k, v2) :: vs2, ?_, ?_, (k, w2) :: ws2, ?_, ?_⟩
              · rw [convertFields_cons,
                  convertFieldVal_leaf root valueToDbFormat sch k x hlx,
                  r1, exceptBind_ok, q1, exceptBind_ok, exceptPure]
              · rw [convertFields_cons,
                  convertFieldVal_leaf root dbFormatToValue sch k w rw1,
                  r2, exceptBind_ok, q2, exceptBind_ok, exceptPure]
              · rw [convertFields_cons,
                  convertFieldVal_leaf root valueToDbFormat sch k v2 rv1,
                  r3, exceptBind_ok, q3, exceptBind_ok, exceptPure]
              · rw [convertFields_cons,
                  convertFieldVal_leaf root dbFormatToValue sch k w2 rw2,
                  r4, exceptBind_ok, q4, exceptBind_ok, exceptPure]
            · rcases nonLeaf_shape x hlx with ⟨gs, rfl⟩ | ⟨ys, rfl⟩ | rfl | rfl
              · have hh : conformsEl root (propSchemaOf sch k) (.obj gs) = true := hhead
                obtain ⟨w, v2, s1, s2, w2, s3, s4⟩ :=
                  ih (.obj gs) hxsz root (propSchemaOf sch k) hh
                obtain ⟨hs1, rfl⟩ := convertElement_obj_ok _ _ _ _ _ s1
                obtain ⟨gs2, rfl⟩ := convertElement_obj_ok _ _ _ _ _ s2
                obtain ⟨hs2, rfl⟩ := convertElement_obj_ok _ _ _ _ _ s3
                refine ⟨(k, .obj hs1) :: ws, (k, .obj gs2) :: vs2, ?_, ?_,
                  (k, .obj hs2) :: ws2, ?_, ?_⟩
                · rw [convertFields_cons,
                    show convertFieldVal root valueToDbFormat sch k (.obj gs) =
                      convertElement root valueToDbFormat (propSchemaOf sch k)
                        (.obj gs) from rfl,
                    s1, exceptBind_ok, q1, exceptBind_ok, exceptPure]
                · rw [convertFields_cons,
                    show convertFieldVal root dbFormatToValue sch k (.obj hs1) =
                      convertElement root dbFormatToValue (propSchemaOf sch k)
                        (.obj hs1) from rfl,
                    s2, exceptBind_ok, q2, exceptBind_ok, exceptPure]
                · rw [convertFields_cons,
                    show convertFieldVal root valueToDbFormat sch k (.obj gs2) =
                      convertElement root valueToDbFormat (propSchemaOf sch k)
                        (.obj gs2) from rfl,
                    s3, exceptBind_ok, q3, exceptBind_ok, exceptPure]
                · rw [convertFields_cons,
                    show convertFieldVal root dbFormatToValue sch k (.obj hs2) =
                      convertElement root dbFormatToValue (propSchemaOf sch k)
                        (.obj hs2) from rfl,
                    s4, exceptBind_ok, q4, exceptBind_ok, exceptPure]
              · have hh : conformsEl root (propSchemaOf sch k) (.arr ys) = true := hhead
                obtain ⟨w, v2, s1, s2, w2, s3, s4⟩ :=
                  ih (.arr ys) hxsz root (propSchemaOf sch k) hh
                obtain ⟨hs1, rfl⟩ := convertElement_arr_ok _ _ _ _ _ s1
                obtain ⟨gs2, rfl⟩ := convertElement_arr_ok _ _ _ _ _ s2
                obtain ⟨hs2, rfl⟩ := convertElement_arr_ok _ _ _ _ _ s3
                refine ⟨(k, .arr hs1) :: ws, (k, .arr gs2) :: vs2, ?_, ?_,
                  (k, .arr hs2) :: ws2, ?_, ?_⟩
                · rw [convertFields_cons,
                    show convertFieldVal root valueToDbFormat sch k (.arr ys) =
                      convertElement root valueToDbFormat (propSchemaOf sch k)
                        (.arr ys) from rfl,
                    s1, exceptBind_ok, q1, exceptBind_ok, exceptPure]
                · rw [convertFields_cons,
                    show convertFieldVal root dbFormatToValue sch k (.arr hs1) =
                      convertElement root dbFormatToValue (propSchemaOf sch k)
                        (.arr hs1) from rfl,
                    s2, exceptBind_ok, q2, exceptBind_ok, exceptPure]
                · rw [convertFields_cons,
                    show convertFieldVal root valueToDbFormat sch k (.arr gs2) =
                      convertElement root valueToDbFormat (propSchemaOf sch k)
                        (.arr gs2) from rfl,
                    s3, exceptBind_ok, q3, exceptBind_ok, exceptPure]
                · rw [convertFields_cons,
                    show convertFieldVal root dbFormatToValue sch k (.arr hs2) =
                      convertElement root dbFormatToValue (propSchemaOf sch k)
                        (.arr hs2) from rfl,
                    s4, exceptBind_ok, q4, exceptBind_ok, exceptPure]
              · exact Bool.noConfusion hhead
              · exact Bool.noConfusion hhead
        have hszf : ∀ p ∈ fs, sizeOf p.2 ≤ n := by
          intro p hp
          have h1 : sizeOf p < sizeOf fs := List.sizeOf_lt_of_mem hp
          have h2 : sizeOf (JsValue.obj fs) = 1 + sizeOf fs := by simp
          have h3 : sizeOf p.2 < sizeOf p := by
            obtain ⟨k0, v0⟩ := p
            simp
          omega
        obtain ⟨ws, vs2, q1, q2, ws2, q3, q4⟩ := hfl fs hszf hcf
        refine ⟨.obj ws, .obj vs2, ?_, ?_, .obj ws2, ?_, ?_⟩
        · rw [hstepO valueToDbFormat fs, q1, exceptBind_ok, exceptPure]
        · rw [hstepO dbFormatToValue ws, q2, exceptBind_ok, exceptPure]
        · rw [hstepO valueToDbFormat vs2, q3, exceptBind_ok, exceptPure]
        · rw [hstepO dbFormatToValue ws2, q4, exceptBind_ok, exceptPure]

/-- The element-level round trip at any conforming element. -/
theorem convert_rt (v root schema : JsValue) (hc : conformsEl root schema v = true) :
    ∃ w v2, convertElement root valueToDbFormat schema v = .ok w ∧
      convertElement root dbFormatToValue schema w = .ok v2 ∧
      ∃ w2, convertElement root valueToDbFormat schema v2 = .ok w2 ∧
        convertElement root dbFormatToValue schema w2 = .ok v2 :=
  convert_rt_aux (sizeOf v) v le_rfl root schema hc

theorem convertDocument_falsy_schema (d s : JsValue)
    (cv : JsValue → JsValue → JsValue → Except JsErr JsValue)
    (h : ¬ jsTruthy s = true) :
    convertDocument d s cv = .ok d := by
  unfold convertDocument
  rw [if_pos h]

theorem convertDocument_falsy_data (d s : JsValue)
    (cv : JsValue → JsValue → JsValue → Except JsErr JsValue)
    (hts : jsTruthy s = true) (h : ¬ jsTruthy d = true) :
    convertDocument d s cv = .ok d := by
  unfold convertDocument
  rw [if_neg (not_not_intro hts), if_pos h]

theorem convertDocument_arr (xs : List JsValue) (s : JsValue)
    (cv : JsValue → JsValue → JsValue → Except JsErr JsValue)
    (hts : jsTruthy s = true) :
    convertDocument (.arr xs) s cv = (do
      let out ← xs.mapM (fun d => convertElement s cv s d)
      pure (JsValue.arr out)) := by
  unfold convertDocument
  rw [if_neg (not_not_intro hts),
    if_neg (not_not_intro (show jsTruthy (.arr xs) = true from rfl))]

theorem convertDocument_obj (fs : List (String × JsValue)) (s : JsValue)
    (cv : JsValue → JsValue → JsValue → Except JsErr JsValue)
    (hts : jsTruthy s = true) :
    convertDocument (.obj fs) s cv = convertElement s cv s (.obj fs) := by
  unfold convertDocument
  rw [if_neg (not_not_intro hts),
    if_neg (not_not_intro (show jsTruthy (.obj fs) = true from rfl))]

/-- Document-level conformance: a falsy schema or document passes
through untouched; a top-level array needs every element to conform
against the whole schema; anything else converts as one element. -/
def conformsDoc (data schema : JsValue) : Bool :=
  if ¬ jsTruthy schema then true
  else if ¬ jsTruthy data then true
  else
    match data with
    | .arr xs => xs.all (fun d => conformsEl schema schema d)
    | _ => conformsEl schema schema data

/-- **C1.** The storage round-trip law, as amended by the claim itself:
for a document `d` conforming to schema `s` (built-in or unregistered
leaf types, every leaf in the shape its converter round-trips — e.g. a
prefixed hex string for `int128`, anything for `int32`), converting to
storage form and back succeeds, and the result `d2` is a fixed point:
converting `d2` to storage form and back yields `d2` again.  (A hex
string tagged `int128` reaches its canonical lowercase trimmed
rendering after one trip; a numeric string tagged `int32` becomes the
corresponding number; both then round-trip to themselves.) -/
theorem C1_storage_roundtrip (d s : JsValue) (hc : conformsDoc d s = true) :
    ∃ d2, (documentToDbFormat d s >>= fun x => dbFormatToDocument x s) = .ok d2 ∧
      (documentToDbFormat d2 s >>= fun x => dbFormatToDocument x s) = .ok d2 := by
  unfold documentToDbFormat dbFormatToDocument
  unfold conformsDoc at hc
  by_cases hts : jsTruthy s = true
  · rw [if_neg (not_not_intro hts)] at hc
    by_cases htd : jsTruthy d = true
    · rw [if_neg (not_not_intro htd)] at hc
      cases d <;> first
        | exact Bool.noConfusion htd
        | (rcases conformsEl_shape _ _ _ hc with ⟨fs2, heq⟩ | ⟨ys2, heq⟩ <;>
            exact JsValue.noConfusion heq)
        | skip
      · rename_i xs
        have hca : xs.all (fun d0 => conformsEl s s d0) = true := hc
        have hml : ∀ (l : List JsValue), (∀ x ∈ l, conformsEl s s x = true) →
            ∃ ws vs2, l.mapM (fun d0 => convertElement s valueToDbFormat s d0) = .ok ws ∧
              ws.mapM (fun d0 => convertElement s dbFormatToValue s d0) = .ok vs2 ∧
              ∃ ws2, vs2.mapM (fun d0 => convertElement s valueToDbFormat s d0) = .ok ws2 ∧
                ws2.mapM (fun d0 => convertElement s dbFormatToValue s d0) = .ok vs2 := by
          intro l
          induction l with
          | nil => intro _; exact ⟨[], [], rfl, rfl, [], rfl, rfl⟩
          | cons x rest ihl =>
            intro hall
            obtain ⟨w, v2, s1, s2, w2, s3, s4⟩ :=
              convert_rt x s s (hall x (List.mem_cons_self x rest))
            obtain ⟨ws, vs2, q1, q2, ws2, q3, q4⟩ :=
              ihl (fun y hy => hall y (List.mem_cons_of_mem _ hy))
            refine ⟨w :: ws, v2 :: vs2, ?_, ?_, w2 :: ws2, ?_, ?_⟩
            · rw [List.mapM_cons, s1, exceptBind_ok, q1, exceptBind_ok, exceptPure]
            · rw [List.mapM_cons, s2, exceptBind_ok, q2, exceptBind_ok, exceptPure]
            · rw [List.mapM_cons, s3, exceptBind_ok, q3, exceptBind_ok, exceptPure]
            · rw [List.mapM_cons, s4, exceptBind_ok, q4, exceptBind_ok, exceptPure]
        have hall : ∀ x ∈ xs, conformsEl s s x = true := by
          intro x hx
          exact List.all_eq_true.mp hca x hx
        obtain ⟨ws, vs2, q1, q2, ws2, q3, q4⟩ := hml xs hall
        refine ⟨.arr vs2, ?_, ?_⟩
        · rw [convertDocument_arr xs s valueToDbFormat hts, q1, exceptBind_ok,
            exceptPure, exceptBind_ok,
            convertDocument_arr ws s dbFormatToValue hts, q2, exceptBind_ok,
            exceptPure]
        · rw [convertDocument_arr vs2 s valueToDbFormat hts, q3, exceptBind_ok,
            exceptPure, exceptBind_ok,
            convertDocument_arr ws2 s dbFormatToValue hts, q4, exceptBind_ok,
            exceptPure]
      · rename_i fs
        have hce : conformsEl s s (.obj fs) = true := hc
        obtain ⟨w, v2, s1, s2, w2, s3, s4⟩ := convert_rt (.obj fs) s s hce
        obtain ⟨ws, rfl⟩ := convertElement_obj_ok _ _ _ _ _ s1
        obtain ⟨vs2, rfl⟩ := convertElement_obj_ok _ _ _ _ _ s2
        obtain ⟨ws2, rfl⟩ := convertElement_obj_ok _ _ _ _ _ s3
        refine ⟨.obj vs2, ?_, ?_⟩
        · rw [convertDocument_obj fs s valueToDbFormat hts, s1, exceptBind_ok,
            convertDocument_obj ws s dbFormatToValue hts, s2]
        · rw [convertDocument_obj vs2 s valueToDbFormat hts, s3, exceptBind_ok,
            convertDocument_obj ws2 s dbFormatToValue hts, s4]
    · refine ⟨d, ?_, ?_⟩ <;>
        rw [convertDocument_falsy_data d s valueToDbFormat hts htd, exceptBind_ok,
          convertDocument_falsy_data d s dbFormatToValue hts htd]
  · refine ⟨d, ?_, ?_⟩ <;>
      rw [convertDocument_falsy_schema d s valueToDbFormat hts, exceptBind_ok,
        convertDocument_falsy_schema d s dbFormatToValue hts]

/-- Witness for C1 at the claim's own example: a document with an
`int128`-tagged hex string and an `int32`-tagged numeric string. -/
theorem C1_witness :
    ∃ d2, (documentToDbFormat
        (.obj [("id", .str "0x1a2b"), ("n", .str "42")])
        (.obj [("properties", .obj [("id", .obj [("mongoType", .str "int128")]),
          ("n", .obj [("mongoType", .str "int32")])])]) >>= fun x =>
      dbFormatToDocument x
        (.obj [("properties", .obj [("id", .obj [("mongoType", .str "int128")]),
          ("n", .obj [("mongoType", .str "int32")])])])) = .ok d2 ∧
      (documentToDbFormat d2
        (.obj [("properties", .obj [("id", .obj [("mongoType", .str "int128")]),
          ("n", .obj [("mongoType", .str "int32")])])]) >>= fun x =>
      dbFormatToDocument x
        (.obj [("properties", .obj [("id", .obj [("mongoType", .str "int128")]),
          ("n", .obj [("mongoType", .str "int32")])])])) = .ok d2 :=
  C1_storage_roundtrip
    (.obj [("id", .str "0x1a2b"), ("n", .str "42")])
    (.obj [("properties", .obj [("id", .obj [("mongoType", .str "int128")]),
      ("n", .obj [("mongoType", .str "int32")])])])
    (by decide)

end Mongodet

